import Mathlib

set_option maxRecDepth 40000

/-!
Verification development for the `legalletters` synthetic-dataset generator
(`legalletters/dataset.py`).

The generator is embedded shallowly:

* Python `str` values are Lean `String`s; list operations are `List` operations.
* `textwrap.fill(text, width)` is modelled by `fill` below: the text is split
  into chunks (maximal space runs, and words further split after hyphens that
  sit between letters, following `textwrap`'s `break_on_hyphens` word
  separator), and the chunks are packed greedily into lines of at most `width`
  characters, dropping the whitespace at each line break.  The model agrees
  with CPython's `textwrap.fill` on texts whose chunks are single spaces and
  ASCII words no longer than the width (all texts the generator produces);
  it does not reproduce `break_long_words` for words longer than the width.
* Every call to the `random` module is an explicit parameter: uniform draws
  are modelled as a draw value reduced modulo the size of the sampled range,
  and each Bernoulli gate of `mk_rough_draft` is a `Bool` field of
  `RoughGates`, in the order the source evaluates them.
-/

/-! ### `" ".join` / `", ".join` -/

def joinStrs (sep : String) : List String → String
  | [] => ""
  | [x] => x
  | x :: y :: ys => x ++ sep ++ joinStrs sep (y :: ys)

/-! ### The `textwrap.fill` model -/

/-- ASCII approximation of the `[^\d\W]` class used by `textwrap`'s word
separator (letters and underscore). -/
def letterB (c : Char) : Bool := c.isAlpha || c = '_'

/-- Look-behind of `textwrap`'s hyphenated-word break: the reversed characters
before the hyphen must start with two letters, or letter, hyphen, letter. -/
def lookBehind : List Char → Bool
  | b :: c :: rest =>
      (letterB b && letterB c) ||
      (letterB b && (c = '-') &&
        (match rest with | d :: _ => letterB d | [] => false))
  | _ => false

/-- Look-ahead of the hyphenated-word break: a letter, an optional hyphen,
then a letter. -/
def lookAhead : List Char → Bool
  | a :: b :: rest =>
      letterB a &&
        (letterB b ||
          ((b = '-') && (match rest with | d :: _ => letterB d | [] => false)))
  | _ => false

/-- Splits one word after each hyphen eligible for a line break.
`rcur` is the reversed current chunk. -/
def hsGo (rcur : List Char) : List Char → List (List Char)
  | [] => [rcur.reverse]
  | c :: rest =>
      if c = '-' && lookBehind rcur && lookAhead rest then
        ('-' :: rcur).reverse :: hsGo [] rest
      else hsGo (c :: rcur) rest

def hsplit (word : List Char) : List (List Char) := hsGo [] word

/-- Emits one finished run (`rcur` holds its characters reversed): a space
run becomes one whitespace chunk, a word is split at eligible hyphens. -/
def emitRun (rcur : List Char) : List (List Char) :=
  match rcur with
  | [] => []
  | c :: _ => if c = ' ' then [rcur.reverse] else hsplit rcur.reverse

/-- Single pass splitting a text into maximal space runs and words. -/
def chGo (rcur : List Char) : List Char → List (List Char)
  | [] => emitRun rcur
  | c :: rest =>
      match rcur with
      | [] => chGo [c] rest
      | d :: _ =>
          if (d = ' ') = (c = ' ') then chGo (c :: rcur) rest
          else emitRun rcur ++ chGo [c] rest

/-- `textwrap`'s chunk decomposition: maximal space runs are whitespace
chunks, maximal non-space runs are words, split further at eligible hyphens. -/
def chunkify (l : List Char) : List (List Char) := chGo [] l

def isWsChunk (c : List Char) : Bool := c.all (· = ' ')

/-- Greedy line filling over chunks.  `cur` is the length of the current
line.  A whitespace chunk is kept if the following word still fits on the
line, and otherwise replaced by a newline; a word that does not fit moves to
a fresh line; trailing whitespace is dropped. -/
def flow (w : Nat) : Nat → List (List Char) → List Char
  | _, [] => []
  | cur, c :: cs =>
    if isWsChunk c then
      match cs with
      | [] => []
      | d :: _ =>
        if cur + c.length + d.length ≤ w then c ++ flow w (cur + c.length) cs
        else '\n' :: flow w 0 cs
    else
      if cur = 0 then c ++ flow w c.length cs
      else if cur + c.length ≤ w then c ++ flow w (cur + c.length) cs
      else '\n' :: (c ++ flow w c.length cs)

/-- The model of `textwrap.fill(s, width=w)`. -/
def fill (w : Nat) (s : String) : String := ⟨flow w 0 (chunkify s.data)⟩

theorem hsGo_flatten (l : List Char) :
    ∀ rcur, (hsGo rcur l).flatten = rcur.reverse ++ l := by
  induction l with
  | nil => intro rcur; simp [hsGo]
  | cons c rest ih =>
      intro rcur
      by_cases h : (c = '-' && lookBehind rcur && lookAhead rest) = true
      · simp [hsGo, h, ih]
        rcases Bool.and_eq_true_iff.mp (Bool.and_eq_true_iff.mp h).1 with ⟨hc, _⟩
        simp at hc
        simp [hc]
      · simp only [hsGo, h, if_false, Bool.not_eq_true] at *
        rw [if_neg (by simp [h])]
        rw [ih (c :: rcur)]
        simp

theorem hsplit_flatten (wd : List Char) : (hsplit wd).flatten = wd := by
  simp [hsplit, hsGo_flatten]

theorem emitRun_flatten (rcur : List Char) : (emitRun rcur).flatten = rcur.reverse := by
  match rcur with
  | [] => simp [emitRun]
  | c :: rest =>
      rw [emitRun]
      by_cases hc : c = ' '
      · simp [hc]
      · simp [hc, hsplit_flatten]

theorem chGo_flatten (l : List Char) :
    ∀ rcur, (chGo rcur l).flatten = rcur.reverse ++ l := by
  induction l with
  | nil => intro rcur; simp [chGo, emitRun_flatten]
  | cons c rest ih =>
      intro rcur
      match rcur with
      | [] => rw [chGo]; rw [ih [c]]; simp
      | d :: rcur' =>
          rw [chGo]
          by_cases h : (d = ' ') = (c = ' ')
          · rw [if_pos h, ih (c :: d :: rcur')]
            simp
          · rw [if_neg h, List.flatten_append, emitRun_flatten, ih [c]]
            simp

theorem chunkify_flatten (l : List Char) : (chunkify l).flatten = l := by
  rw [chunkify, chGo_flatten]; simp

/-! ### Relating a text to its filled form

`flow` only ever copies input characters, replaces the spaces at a line
break by one newline, or inserts a newline between two hyphen chunks.
`NLEdit xs ys` captures exactly these edits (`ys` is the filled text). -/

inductive NLEdit : List Char → List Char → Prop
  | nil : NLEdit [] []
  | keep (c : Char) {xs ys : List Char} : NLEdit xs ys → NLEdit (c :: xs) (c :: ys)
  | brk (k : Nat) {xs ys : List Char} :
      NLEdit xs ys → NLEdit (List.replicate k ' ' ++ xs) ('\n' :: ys)
  | allWs {xs : List Char} : (∀ x ∈ xs, x = ' ') → NLEdit xs []

theorem NLEdit.keep_many (c : List Char) {xs ys : List Char} (e : NLEdit xs ys) :
    NLEdit (c ++ xs) (c ++ ys) := by
  induction c with
  | nil => simpa using e
  | cons a c ih => exact NLEdit.keep a ih

theorem isWsChunk_eq_replicate {c : List Char} (h : isWsChunk c = true) :
    c = List.replicate c.length ' ' := by
  rw [List.eq_replicate_iff]
  exact ⟨rfl, by simpa [isWsChunk, List.all_eq_true] using h⟩

theorem flow_nledit (w : Nat) (chunks : List (List Char)) :
    ∀ cur, NLEdit chunks.flatten (flow w cur chunks) := by
  induction chunks with
  | nil => intro cur; exact NLEdit.nil
  | cons c cs ih =>
      intro cur
      by_cases hws : isWsChunk c = true
      · match cs with
        | [] =>
            simp only [flow, if_pos hws]
            refine NLEdit.allWs ?_
            intro x hx
            simp only [List.flatten_cons, List.flatten_nil, List.append_nil] at hx
            have hall : ∀ y ∈ c, y = ' ' := by
              simpa [isWsChunk, List.all_eq_true] using hws
            exact hall x hx
        | d :: cs' =>
            simp only [flow, if_pos hws]
            by_cases hfit : cur + c.length + d.length ≤ w
            · rw [if_pos hfit]
              exact NLEdit.keep_many c (ih _)
            · rw [if_neg hfit]
              rw [List.flatten_cons, isWsChunk_eq_replicate hws]
              exact NLEdit.brk c.length (ih _)
      · simp only [flow, if_neg hws]
        by_cases h0 : cur = 0
        · rw [if_pos h0]
          exact NLEdit.keep_many c (ih _)
        · rw [if_neg h0]
          by_cases hfit : cur + c.length ≤ w
          · rw [if_pos hfit]
            exact NLEdit.keep_many c (ih _)
          · rw [if_neg hfit]
            have hk : NLEdit (c :: cs).flatten (c ++ flow w c.length cs) :=
              NLEdit.keep_many c (ih _)
            simpa using NLEdit.brk 0 hk

/-- A newline-free prefix of the filled text is a prefix of the source. -/
theorem NLEdit.pre {xs ys t : List Char} (e : NLEdit xs ys) :
    '\n' ∉ t → t <+: ys → t <+: xs := by
  induction e generalizing t with
  | nil => intro _ h; simpa using h
  | keep c _ ih =>
      intro hnl h
      match t with
      | [] => exact List.nil_prefix
      | a :: t' =>
          rcases List.cons_prefix_cons.mp h with ⟨rfl, h'⟩
          exact List.cons_prefix_cons.mpr
            ⟨rfl, ih (fun hm => hnl (List.mem_cons_of_mem _ hm)) h'⟩
  | brk k _ ih =>
      intro hnl h
      match t with
      | [] => exact List.nil_prefix
      | a :: t' =>
          rcases List.cons_prefix_cons.mp h with ⟨rfl, _⟩
          exact absurd (List.mem_cons_self _ _) hnl
  | allWs hws =>
      intro _ h
      simp [List.prefix_nil.mp h]

/-- A newline-free infix of the filled text is an infix of the source. -/
theorem NLEdit.sub {xs ys t : List Char} (e : NLEdit xs ys) :
    '\n' ∉ t → t <:+: ys → t <:+: xs := by
  induction e generalizing t with
  | nil => intro _ h; simpa using h
  | keep c e ih =>
      intro hnl h
      rcases List.infix_cons_iff.mp h with hp | hs
      · exact ((NLEdit.keep c e).pre hnl hp).isInfix
      · exact List.infix_cons_iff.mpr (Or.inr (ih hnl hs))
  | brk k e ih =>
      intro hnl h
      rcases List.infix_cons_iff.mp h with hp | hs
      · match t with
        | [] => exact List.nil_infix
        | a :: t' =>
            rcases List.cons_prefix_cons.mp hp with ⟨rfl, _⟩
            exact absurd (List.mem_cons_self _ _) hnl
      · rcases ih hnl hs with ⟨u, v, huv⟩
        exact ⟨List.replicate k ' ' ++ u, v, by rw [← huv]; simp⟩
  | allWs hws =>
      intro _ h
      simp [List.eq_nil_of_infix_nil h]

theorem NLEdit.mem_dn {xs ys : List Char} (e : NLEdit xs ys) {c : Char} :
    c ∈ ys → c = '\n' ∨ c ∈ xs := by
  induction e with
  | nil => intro h; simp at h
  | keep a _ ih =>
      intro h
      rcases List.mem_cons.mp h with rfl | h'
      · exact Or.inr (List.mem_cons_self _ _)
      · rcases ih h' with h1 | h2
        · exact Or.inl h1
        · exact Or.inr (List.mem_cons_of_mem _ h2)
  | brk k _ ih =>
      intro h
      rcases List.mem_cons.mp h with rfl | h'
      · exact Or.inl rfl
      · rcases ih h' with h1 | h2
        · exact Or.inl h1
        · exact Or.inr (by simp [h2])
  | allWs hws => intro h; simp at h

theorem NLEdit.mem_up {xs ys : List Char} (e : NLEdit xs ys) {c : Char} :
    c ∈ xs → c ≠ ' ' → c ∈ ys := by
  induction e with
  | nil => intro h _; simp at h
  | keep a _ ih =>
      intro h hc
      rcases List.mem_cons.mp h with rfl | h'
      · exact List.mem_cons_self _ _
      · exact List.mem_cons_of_mem _ (ih h' hc)
  | brk k _ ih =>
      intro h hc
      rcases List.mem_append.mp h with h' | h'
      · exact absurd (List.eq_of_mem_replicate h') hc
      · exact List.mem_cons_of_mem _ (ih h' hc)
  | allWs hws => intro h hc; exact absurd (hws _ h) hc

theorem fill_data (w : Nat) (s : String) :
    (fill w s).data = flow w 0 (chunkify s.data) := rfl

theorem fill_nledit (w : Nat) (s : String) : NLEdit s.data (fill w s).data := by
  rw [fill_data]
  have := flow_nledit w (chunkify s.data) 0
  rwa [chunkify_flatten] at this

theorem sub_of_sub_fill {w : Nat} {s : String} {t : List Char}
    (hnl : '\n' ∉ t) (h : t <:+: (fill w s).data) : t <:+: s.data :=
  (fill_nledit w s).sub hnl h

theorem mem_of_mem_fill {w : Nat} {s : String} {c : Char}
    (h : c ∈ (fill w s).data) : c = '\n' ∨ c ∈ s.data :=
  (fill_nledit w s).mem_dn h

theorem mem_fill_of_mem {w : Nat} {s : String} {c : Char}
    (h : c ∈ s.data) (hc : c ≠ ' ') : c ∈ (fill w s).data :=
  (fill_nledit w s).mem_up h hc

/-! ### Splitting infix facts at a separator character -/

theorem pre_sep {t x y : List Char} {c : Char}
    (hc : c ∉ t) (h : t <+: x ++ c :: y) : t <+: x := by
  induction x generalizing t with
  | nil =>
      match t with
      | [] => exact List.nil_prefix
      | a :: t' =>
          rcases List.cons_prefix_cons.mp h with ⟨rfl, _⟩
          exact absurd (List.mem_cons_self _ _) hc
  | cons a x' ih =>
      match t with
      | [] => exact List.nil_prefix
      | b :: t' =>
          rcases List.cons_prefix_cons.mp h with ⟨rfl, h'⟩
          exact List.cons_prefix_cons.mpr
            ⟨rfl, ih (fun hm => hc (List.mem_cons_of_mem _ hm)) h'⟩

/-- An infix avoiding the separator character lies on one side of it. -/
theorem sub_sep {t x y : List Char} {c : Char}
    (hc : c ∉ t) (h : t <:+: x ++ c :: y) : t <:+: x ∨ t <:+: y := by
  induction x generalizing t with
  | nil =>
      rw [List.nil_append] at h
      rcases List.infix_cons_iff.mp h with hp | hs
      · match t with
        | [] => exact Or.inl List.nil_infix
        | a :: t' =>
            rcases List.cons_prefix_cons.mp hp with ⟨rfl, _⟩
            exact absurd (List.mem_cons_self _ _) hc
      · exact Or.inr hs
  | cons a x' ih =>
      rw [List.cons_append] at h
      rcases List.infix_cons_iff.mp h with hp | hs
      · exact Or.inl (pre_sep hc (by simpa using hp)).isInfix
      · rcases ih hc hs with h1 | h2
        · exact Or.inl (List.infix_cons_iff.mpr (Or.inr h1))
        · exact Or.inr h2

theorem eq_nil_of_sub_nil {t : List Char} (h : t <:+: ([] : List Char)) : t = [] :=
  List.eq_nil_of_infix_nil h

theorem sub_app_of_left {t x : List Char} (y : List Char) (h : t <:+: x) :
    t <:+: x ++ y := by
  rcases h with ⟨u, v, huv⟩
  exact ⟨u, v ++ y, by rw [← huv]; simp⟩

theorem sub_app_of_right {t y : List Char} (x : List Char) (h : t <:+: y) :
    t <:+: x ++ y := by
  rcases h with ⟨u, v, huv⟩
  exact ⟨x ++ u, v, by rw [← huv]; simp⟩

/-! ### Joining with `" "` and `", "` -/

theorem joinStrs_data_cons (sep : String) (x y : String) (ys : List String) :
    (joinStrs sep (x :: y :: ys)).data =
      x.data ++ sep.data ++ (joinStrs sep (y :: ys)).data := by
  rw [joinStrs, String.data_append, String.data_append]

/-- A nonempty space-free infix of `" ".join(l)` is an infix of a member. -/
theorem sub_joinSpace {t : List Char} (hne : t ≠ []) (hsp : ' ' ∉ t) :
    ∀ (l : List String), t <:+: (joinStrs " " l).data → ∃ s ∈ l, t <:+: s.data := by
  intro l
  induction l with
  | nil =>
      intro h
      exact absurd (List.eq_nil_of_infix_nil h) hne
  | cons x ys ih =>
      intro h
      match ys with
      | [] => exact ⟨x, by simp, by simpa [joinStrs] using h⟩
      | y :: ys' =>
          rw [joinStrs_data_cons] at h
          have h' : t <:+: x.data ++ ' ' :: (joinStrs " " (y :: ys')).data := by
            simpa using h
          rcases sub_sep hsp h' with h1 | h2
          · exact ⟨x, by simp, h1⟩
          · rcases ih h2 with ⟨s, hs, hsub⟩
            exact ⟨s, by simp [hs], hsub⟩

/-- A nonempty space- and comma-free infix of `", ".join(l)` is an infix of a
member. -/
theorem sub_joinComma {t : List Char} (hne : t ≠ []) (hsp : ' ' ∉ t)
    (hcm : ',' ∉ t) :
    ∀ (l : List String), t <:+: (joinStrs ", " l).data → ∃ s ∈ l, t <:+: s.data := by
  intro l
  induction l with
  | nil =>
      intro h
      exact absurd (List.eq_nil_of_infix_nil h) hne
  | cons x ys ih =>
      intro h
      match ys with
      | [] => exact ⟨x, by simp, by simpa [joinStrs] using h⟩
      | y :: ys' =>
          rw [joinStrs_data_cons] at h
          have h' : t <:+: x.data ++ ',' :: (' ' :: (joinStrs ", " (y :: ys')).data) := by
            simpa using h
          rcases sub_sep hcm h' with h1 | h2
          · exact ⟨x, by simp, h1⟩
          · have h'' : t <:+: ([] : List Char) ++ ' ' :: (joinStrs ", " (y :: ys')).data := by
              simpa using h2
            rcases sub_sep hsp h'' with h3 | h4
            · exact absurd (List.eq_nil_of_infix_nil h3) hne
            · rcases ih h4 with ⟨s, hs, hsub⟩
              exact ⟨s, by simp [hs], hsub⟩

/-- A member of a joined list occurs verbatim inside the join. -/
theorem mem_sub_joinStrs (sep : String) (s : String) :
    ∀ (l : List String), s ∈ l → s.data <:+: (joinStrs sep l).data := by
  intro l
  induction l with
  | nil => intro h; simp at h
  | cons x ys ih =>
      intro h
      match ys with
      | [] =>
          rcases List.mem_cons.mp h with rfl | h'
          · simpa [joinStrs] using List.infix_refl _
          · simp at h'
      | y :: ys' =>
          rcases List.mem_cons.mp h with rfl | h'
          · rw [joinStrs_data_cons]
            exact sub_app_of_left _ (sub_app_of_left _ (List.infix_refl _))
          · rw [joinStrs_data_cons]
            exact sub_app_of_right _ (ih h')

/-! ### Decimal digits of `Nat.repr` -/

theorem digitChar_isDigit {n : Nat} (h : n < 10) :
    (Nat.digitChar n).isDigit = true := by
  interval_cases n <;> decide

theorem toDigitsCore_digits :
    ∀ (fuel n : Nat) (acc : List Char), (∀ c ∈ acc, c.isDigit = true) →
      ∀ c ∈ Nat.toDigitsCore 10 fuel n acc, c.isDigit = true := by
  intro fuel
  induction fuel with
  | zero => intro n acc hacc; simpa [Nat.toDigitsCore] using hacc
  | succ fuel ih =>
      intro n acc hacc c hc
      rw [Nat.toDigitsCore] at hc
      by_cases h0 : n / 10 = 0
      · rw [if_pos h0] at hc
        rcases List.mem_cons.mp hc with rfl | h'
        · exact digitChar_isDigit (Nat.mod_lt _ (by omega))
        · exact hacc _ h'
      · rw [if_neg h0] at hc
        refine ih _ _ ?_ _ hc
        intro d hd
        rcases List.mem_cons.mp hd with rfl | h'
        · exact digitChar_isDigit (Nat.mod_lt _ (by omega))
        · exact hacc _ h'

theorem repr_chars_digit (n : Nat) :
    ∀ c ∈ (Nat.repr n).data, c.isDigit = true := by
  intro c hc
  have : c ∈ Nat.toDigitsCore 10 (n + 1) n [] := by
    simpa [Nat.repr, Nat.toDigits, List.asString] using hc
  exact toDigitsCore_digits (n + 1) n [] (by simp) c this

/-- A token containing a non-digit character is never an infix of the decimal
representation of a natural number. -/
theorem not_sub_repr {t : List Char} {c : Char} (hct : c ∈ t)
    (hc : c.isDigit = false) (n : Nat) : ¬ t <:+: (Nat.repr n).data := by
  intro h
  have := repr_chars_digit n c (h.subset hct)
  rw [hc] at this
  exact Bool.false_ne_true this

/-! ### Configuration constants (`dataset.py`, CONFIG section) -/

def VISA_TYPES : List String := ["EB-1A", "O-1A", "NIW"]

def FIELDS : List String :=
  ["computer vision", "computational biology", "robotics", "NLP",
   "theoretical CS", "HCI", "cybersecurity"]

def PUB_RANGE : Nat × Nat := (8, 80)

def CITATION_RANGE : Nat × Nat := (200, 5000)

def AWARD_POOL : List String :=
  ["ACM Best Paper Award", "IEEE Fellow", "Sloan Fellowship",
   "NSF CAREER Award", "Turing Award nomination", "AAAI Fellow",
   "ACL Best Paper Award", "NeurIPS Outstanding Paper", "ICLR Spotlight"]

def VENUE_POOL : List String :=
  ["NeurIPS", "ICML", "CVPR", "ACL", "EMNLP", "KDD", "AAAI", "ICLR"]

def ORG_POOL : List String :=
  ["MIT", "Stanford", "CMU", "Berkeley", "Google DeepMind",
   "Microsoft Research", "OpenAI", "Caltech"]

def TITLE_POOL : List String :=
  ["Professor", "Associate Professor", "Research Scientist",
   "Principal Scientist", "Chair", "Director"]

/-- The fabricated-award pool written inline in `mk_rough_draft`. -/
def FAKE_AWARD_POOL : List String :=
  ["Best Innovator 2022", "Global Genius Prize", "World AI Medal"]

/-! ### Data model -/

structure Person where
  full_name : String
  affiliation : String
  title : String
deriving DecidableEq

structure BeneficiaryFacts where
  name : String
  field : String
  pubs : Nat
  citations : Nat
  key_awards : List String
  key_venues : List String
deriving DecidableEq

/-! ### Random primitives

`random.randint(lo, hi)` and `random.choice` / `random.sample` are modelled
with explicit draw values reduced modulo the size of the sampled range, so a
theorem quantifying over all draws covers every outcome the source can
produce. -/

/-- `random.randint(lo, hi)` (inclusive bounds). -/
def randint (lo hi draw : Nat) : Nat := lo + draw % (hi + 1 - lo)

/-- `random.choice(pool)`. -/
def rchoice (pool : List String) (draw : Nat) : String :=
  pool.getD (draw % pool.length) ""

/-- `random.sample(pool, k)` for `k ≤ pool.length`: repeatedly draw a
position in the remaining pool and remove the drawn element. -/
def sampleIdx : Nat → List Nat → List String → List String
  | 0, _, _ => []
  | _ + 1, _, [] => []
  | k + 1, picks, p :: ps =>
      let i := picks.headD 0 % (p :: ps).length
      (p :: ps).getD i p :: sampleIdx k picks.tail ((p :: ps).eraseIdx i)

/-- `choice_no_replacement(pool, k) = random.sample(pool, min(k, len(pool)))`. -/
def choice_no_replacement (picks : List Nat) (pool : List String) (k : Nat) :
    List String :=
  sampleIdx (min k pool.length) picks pool

/-! ### Fact synthesizer -/

structure BeneficiaryRand where
  fieldDraw : Nat
  pubsDraw : Nat
  citDraw : Nat
  nAwardsDraw : Nat
  awardPicks : List Nat
  nVenuesDraw : Nat
  venuePicks : List Nat
deriving DecidableEq

def mk_beneficiary (rnd : BeneficiaryRand) (i : Nat) : BeneficiaryFacts :=
  { name := "Dr. Alex " ++ Nat.repr i
  , field := rchoice FIELDS rnd.fieldDraw
  , pubs := randint PUB_RANGE.1 PUB_RANGE.2 rnd.pubsDraw
  , citations := randint CITATION_RANGE.1 CITATION_RANGE.2 rnd.citDraw
  , key_awards :=
      choice_no_replacement rnd.awardPicks AWARD_POOL (randint 0 2 rnd.nAwardsDraw)
  , key_venues :=
      choice_no_replacement rnd.venuePicks VENUE_POOL (randint 1 3 rnd.nVenuesDraw) }

structure RecommenderRand where
  affDraw : Nat
  titleDraw : Nat
deriving DecidableEq

def mk_recommender (rnd : RecommenderRand) (i : Nat) : Person :=
  { full_name := "Dr. Jordan " ++ Nat.repr i
  , affiliation := rchoice ORG_POOL rnd.affDraw
  , title := rchoice TITLE_POOL rnd.titleDraw }

/-! ### Fact renderer -/

/-- The unwrapped paragraph that `facts_to_string` word-wraps. -/
def factsCore (b : BeneficiaryFacts) : String :=
  let awards := if b.key_awards ≠ [] then joinStrs ", " b.key_awards else "—"
  let venues := joinStrs ", " b.key_venues
  b.name ++ " works in " ++ b.field ++ ". Publications: " ++ Nat.repr b.pubs ++
    ". Citations: " ++ Nat.repr b.citations ++ ". Awards: " ++ awards ++
    ". Key venues: " ++ venues ++ "."

def facts_to_string (b : BeneficiaryFacts) : String := fill 120 (factsCore b)

def recommender_to_string (r : Person) : String :=
  r.full_name ++ ", " ++ r.title ++ ", " ++ r.affiliation

/-! ### Final-draft composer -/

def legal_intro (visa_type : String) (r : Person) (b : BeneficiaryFacts) : String :=
  "I am honored to recommend " ++ b.name ++ " for the " ++ visa_type ++
    " visa category. As " ++ r.title ++ " at " ++ r.affiliation ++
    ", I have closely followed " ++ b.name ++ "\x27s work in " ++ b.field ++ "."

/-- The first entry of the `parts` list built by `legal_evidence`. -/
def evidPubs (b : BeneficiaryFacts) : String :=
  b.name ++ " has authored " ++ Nat.repr b.pubs ++
    " peer-reviewed publications with approximately " ++
    Nat.repr b.citations ++ " citations."

/-- The award sentence appended to `parts` when awards exist. -/
def evidAwards (b : BeneficiaryFacts) : String :=
  "Notably, " ++ b.name ++ " received " ++ joinStrs ", " b.key_awards ++ "."

/-- The venue sentence always appended to `parts`. -/
def evidVenues (b : BeneficiaryFacts) : String :=
  b.name ++ "\x27s research appears at " ++ joinStrs ", " b.key_venues ++
    " and is widely recognized in " ++ b.field ++ "."

def legal_evidence (b : BeneficiaryFacts) : String :=
  joinStrs " "
    ([evidPubs b] ++
      (if b.key_awards ≠ [] then [evidAwards b] else []) ++
      [evidVenues b])

def legal_closing (b : BeneficiaryFacts) : String :=
  "In summary, " ++ b.name ++
    " demonstrates sustained national and international acclaim. " ++
    "I strongly endorse this petition and am available for any additional information."

def mk_final_draft (visa_type : String) (r : Person) (b : BeneficiaryFacts) : String :=
  fill 110 (legal_intro visa_type r b) ++ "\n\n" ++
    fill 110 (legal_evidence b) ++ "\n\n" ++ fill 110 (legal_closing b)

/-! ### Rough-draft synthesizer -/

/-- `maybe_wrong_count(true_val)`: `delta = randint(5, 20)` (modelled as
`5 + deltaDraw % 16`), a uniform sign from `random.choice([-delta, delta])`,
and the floor `max(1, true_val + signed delta)`. -/
def maybe_wrong_count (deltaDraw : Nat) (down : Bool) (true_val : Nat) : Nat :=
  let delta : Int := 5 + (deltaDraw % 16 : Nat)
  (max 1 ((true_val : Int) + (if down then -delta else delta))).toNat

/-- One field per `random` draw of `mk_rough_draft`, in source order. -/
structure RoughGates where
  weakVisa : Bool
  omitFact : Bool
  omitAwardCoin : Bool
  wrongCount : Bool
  deltaDraw : Nat
  signDown : Bool
  halluc : Bool
  fakeDraw : Nat
  styleWeak : Bool
  sectionMiss : Bool
  dropFirstCoin : Bool
  misname : Bool
  wrongVisaDraw : Nat
  passive : Bool
deriving DecidableEq

def roughIntro (b : BeneficiaryFacts) : String :=
  "I am writing to recommend " ++ b.name ++ ". " ++ b.name ++
    " is a talented researcher in " ++ b.field ++ "."

def roughEvidenceBase (b : BeneficiaryFacts) : String :=
  "They have many publications and their work is known at venues like " ++
    joinStrs ", " b.key_venues ++ "."

/-- The initial weak closing; gate 1 always overwrites `chunks[-1]`, so this
string never survives into the draft. -/
def roughClosing0 : String := "I believe they are qualified for the visa."

/-- Gate 1 (visa-mention weakening): the resulting last chunk. -/
def roughClosing (g : RoughGates) (visa_type : String) : String :=
  if g.weakVisa then "I believe they are highly qualified."
  else "I believe they are qualified for the " ++ visa_type ++ " visa."

/-- Gate 2 (key-fact omission): the evidence segment after the optional
replacement. -/
def roughEvidenceAfterOmit (g : RoughGates) (b : BeneficiaryFacts) : String :=
  if g.omitFact then
    (if b.key_awards ≠ [] ∧ g.omitAwardCoin = true then
      "They have many publications and are recognized in their field."
    else "Their work is recognized at top venues.")
  else roughEvidenceBase b

/-- The publication-count sentence appended by gate 3. -/
def countSentence (n : Nat) : String :=
  " They have around " ++ Nat.repr n ++ " publications."

/-- Gate 3 (count corruption): the count that gets appended. -/
def wrongOrTrueCount (g : RoughGates) (b : BeneficiaryFacts) : Nat :=
  if g.wrongCount then maybe_wrong_count g.deltaDraw g.signDown b.pubs else b.pubs

/-- The hallucinated-award sentence appended by gate 4. -/
def hallucSentence (g : RoughGates) : String :=
  " They also received the " ++ rchoice FAKE_AWARD_POOL g.fakeDraw ++ "."

/-- The evidence chunk (`chunks[1]`) after gates 2-4. -/
def roughEvidenceFull (g : RoughGates) (b : BeneficiaryFacts) : String :=
  if g.halluc then
    roughEvidenceAfterOmit g b ++ countSentence (wrongOrTrueCount g b) ++
      hallucSentence g
  else roughEvidenceAfterOmit g b ++ countSentence (wrongOrTrueCount g b)

def fillerSentence : String :=
  "I am pleased to write this letter. It is my pleasure to write this letter."

/-- The chunk list after gate 5 (style weakening, `chunks.insert(0, ...)`). -/
def chunksAfterStyle (g : RoughGates) (visa_type : String) (b : BeneficiaryFacts) :
    List String :=
  if g.styleWeak then
    [fillerSentence, roughIntro b, roughEvidenceFull g b, roughClosing g visa_type]
  else [roughIntro b, roughEvidenceFull g b, roughClosing g visa_type]

/-- Gate 6 (section omission): `chunks.pop(0)` when the coin lands below 0.5
and more than two chunks remain, else `chunks[:-1]`. -/
def chunksAfterMiss (g : RoughGates) (visa_type : String) (b : BeneficiaryFacts) :
    List String :=
  if g.sectionMiss then
    (if g.dropFirstCoin = true ∧ (chunksAfterStyle g visa_type b).length > 2 then
      (chunksAfterStyle g visa_type b).drop 1
    else (chunksAfterStyle g visa_type b).dropLast)
  else chunksAfterStyle g visa_type b

/-- `chunks[-1] = x` on a Python list. -/
def setLast (l : List String) (x : String) : List String := l.dropLast ++ [x]

/-- `random.choice([v for v in VISA_TYPES if v != visa_type])`. -/
def wrong_visa (g : RoughGates) (visa_type : String) : String :=
  rchoice (VISA_TYPES.filter (fun v => v ≠ visa_type)) g.wrongVisaDraw

/-- Gate 7 (visa misnaming): overwrite the last remaining chunk. -/
def chunksFinal (g : RoughGates) (visa_type : String) (b : BeneficiaryFacts) :
    List String :=
  if g.misname then
    setLast (chunksAfterMiss g visa_type b)
      ("I believe they are qualified for the " ++ wrong_visa g visa_type ++ " visa.")
  else chunksAfterMiss g visa_type b

def passiveFiller : String :=
  " Their contributions have been considered impactful by many, " ++
    "in ways that are thought to be significant."

/-- The rough-draft body before word-wrapping (gate 8 appends the passive
filler). -/
def roughBody (g : RoughGates) (visa_type : String) (b : BeneficiaryFacts) : String :=
  if g.passive then joinStrs " " (chunksFinal g visa_type b) ++ passiveFiller
  else joinStrs " " (chunksFinal g visa_type b)

def mk_rough_draft (g : RoughGates) (visa_type : String) (r : Person)
    (b : BeneficiaryFacts) : String :=
  fill 110 (roughBody g visa_type b)

/-! ### Properties of the sampling primitives -/

theorem randint_bounds (lo hi d : Nat) (h : lo ≤ hi) :
    lo ≤ randint lo hi d ∧ randint lo hi d ≤ hi := by
  have h2 : d % (hi + 1 - lo) < hi + 1 - lo := Nat.mod_lt d (by omega)
  unfold randint
  omega

theorem rchoice_mem (pool : List String) (d : Nat) (h : pool ≠ []) :
    rchoice pool d ∈ pool := by
  have hl : 0 < pool.length := List.length_pos.mpr h
  have hi : d % pool.length < pool.length := Nat.mod_lt d hl
  rw [rchoice, List.getD_eq_getElem pool "" hi]
  exact List.getElem_mem hi

theorem sampleIdx_length :
    ∀ (k : Nat) (picks : List Nat) (pool : List String),
      (sampleIdx k picks pool).length = min k pool.length := by
  intro k
  induction k with
  | zero => intro picks pool; simp [sampleIdx]
  | succ k ih =>
      intro picks pool
      match pool with
      | [] => simp [sampleIdx]
      | p :: ps =>
          rw [sampleIdx]
          have hlen : (p :: ps).length > 0 := by simp
          have hi : picks.headD 0 % (p :: ps).length < (p :: ps).length :=
            Nat.mod_lt _ hlen
          have hlen2 : ((p :: ps).eraseIdx (picks.headD 0 % (p :: ps).length)).length
              = ps.length := by
            rw [List.length_eraseIdx, if_pos hi]
            simp
          simp only [List.length_cons] at hlen2
          simp only [List.length_cons, ih, hlen2]
          omega

theorem sampleIdx_subset :
    ∀ (k : Nat) (picks : List Nat) (pool : List String),
      sampleIdx k picks pool ⊆ pool := by
  intro k
  induction k with
  | zero => intro picks pool; simp [sampleIdx]
  | succ k ih =>
      intro picks pool
      match pool with
      | [] => simp [sampleIdx]
      | p :: ps =>
          rw [sampleIdx]
          intro x hx
          rcases List.mem_cons.mp hx with rfl | hx'
          · have hi : picks.headD 0 % (p :: ps).length < (p :: ps).length :=
              Nat.mod_lt _ (by simp)
            rw [List.getD_eq_getElem _ p hi]
            exact List.getElem_mem hi
          · exact (List.eraseIdx_subset _ _) (ih picks.tail _ hx')

theorem getD_not_mem_eraseIdx :
    ∀ (l : List String) (i : Nat) (d : String), l.Nodup → i < l.length →
      l.getD i d ∉ l.eraseIdx i := by
  intro l
  induction l with
  | nil => intro i d _ hi; simp at hi
  | cons a as ih =>
      intro i d hnd hi
      rcases List.nodup_cons.mp hnd with ⟨ha, has⟩
      match i with
      | 0 => simpa [List.eraseIdx] using ha
      | Nat.succ j =>
          have hj : j < as.length := by simpa using hi
          simp only [List.eraseIdx, List.getD_cons_succ, List.mem_cons]
          rintro (h | h)
          · exact ha (by rw [← h, List.getD_eq_getElem as d hj]; exact List.getElem_mem hj)
          · exact ih j d has hj h

theorem sampleIdx_nodup :
    ∀ (k : Nat) (picks : List Nat) (pool : List String), pool.Nodup →
      (sampleIdx k picks pool).Nodup := by
  intro k
  induction k with
  | zero => intro picks pool _; simp [sampleIdx]
  | succ k ih =>
      intro picks pool hnd
      match pool with
      | [] => simp [sampleIdx]
      | p :: ps =>
          rw [sampleIdx]
          have hi : picks.headD 0 % (p :: ps).length < (p :: ps).length :=
            Nat.mod_lt _ (by simp)
          refine List.nodup_cons.mpr ⟨?_, ih _ _ (List.Nodup.eraseIdx _ hnd)⟩
          intro hmem
          exact getD_not_mem_eraseIdx (p :: ps) _ p hnd hi
            (sampleIdx_subset _ _ _ hmem)

theorem choice_no_replacement_length (picks : List Nat) (pool : List String)
    (k : Nat) : (choice_no_replacement picks pool k).length = min k pool.length := by
  rw [choice_no_replacement, sampleIdx_length]
  omega

theorem choice_no_replacement_subset (picks : List Nat) (pool : List String)
    (k : Nat) : choice_no_replacement picks pool k ⊆ pool :=
  sampleIdx_subset _ _ _

theorem choice_no_replacement_nodup (picks : List Nat) (pool : List String)
    (k : Nat) (h : pool.Nodup) : (choice_no_replacement picks pool k).Nodup :=
  sampleIdx_nodup _ _ _ h

/-! ### Concrete fixtures shared by witnesses and counterexamples -/

/-- All Bernoulli gates off, all draws zero. -/
def gOff : RoughGates :=
  { weakVisa := false, omitFact := false, omitAwardCoin := false,
    wrongCount := false, deltaDraw := 0, signDown := false, halluc := false,
    fakeDraw := 0, styleWeak := false, sectionMiss := false,
    dropFirstCoin := false, misname := false, wrongVisaDraw := 0,
    passive := false }

def bEx : BeneficiaryFacts :=
  { name := "Dr. Alex 1", field := "NLP", pubs := 22, citations := 1400,
    key_awards := ["ACM Best Paper Award"], key_venues := ["NeurIPS", "ICML"] }

def pEx : Person :=
  { full_name := "Dr. Jordan 1", affiliation := "MIT", title := "Professor" }

/-! ### C6: invariants of generated facts -/

/-- C6: every `BeneficiaryFacts` produced by `mk_beneficiary` has its
publication count within [8, 80] and citation count within [200, 5000], both
inclusive; its award list and venue list are duplicate-free subsets of
`AWARD_POOL` / `VENUE_POOL`; the award list has at most 2 elements and the
venue list between 1 and 3. -/
theorem C6_fact_invariants (rnd : BeneficiaryRand) (i : Nat) :
    8 ≤ (mk_beneficiary rnd i).pubs ∧ (mk_beneficiary rnd i).pubs ≤ 80 ∧
    200 ≤ (mk_beneficiary rnd i).citations ∧
    (mk_beneficiary rnd i).citations ≤ 5000 ∧
    (mk_beneficiary rnd i).key_awards.Nodup ∧
    (mk_beneficiary rnd i).key_awards ⊆ AWARD_POOL ∧
    (mk_beneficiary rnd i).key_awards.length ≤ 2 ∧
    (mk_beneficiary rnd i).key_venues.Nodup ∧
    (mk_beneficiary rnd i).key_venues ⊆ VENUE_POOL ∧
    1 ≤ (mk_beneficiary rnd i).key_venues.length ∧
    (mk_beneficiary rnd i).key_venues.length ≤ 3 := by
  have hp := randint_bounds 8 80 rnd.pubsDraw (by omega)
  have hc := randint_bounds 200 5000 rnd.citDraw (by omega)
  have ha := randint_bounds 0 2 rnd.nAwardsDraw (by omega)
  have hv := randint_bounds 1 3 rnd.nVenuesDraw (by omega)
  have hlena : (mk_beneficiary rnd i).key_awards.length =
      min (randint 0 2 rnd.nAwardsDraw) 9 := by
    simp [mk_beneficiary, choice_no_replacement_length, AWARD_POOL]
  have hlenv : (mk_beneficiary rnd i).key_venues.length =
      min (randint 1 3 rnd.nVenuesDraw) 8 := by
    simp [mk_beneficiary, choice_no_replacement_length, VENUE_POOL]
  refine ⟨?_, ?_, ?_, ?_, ?_, ?_, ?_, ?_, ?_, ?_, ?_⟩
  · simpa [mk_beneficiary, PUB_RANGE] using hp.1
  · simpa [mk_beneficiary, PUB_RANGE] using hp.2
  · simpa [mk_beneficiary, CITATION_RANGE] using hc.1
  · simpa [mk_beneficiary, CITATION_RANGE] using hc.2
  · exact choice_no_replacement_nodup _ _ _ (by decide)
  · exact choice_no_replacement_subset _ _ _
  · omega
  · exact choice_no_replacement_nodup _ _ _ (by decide)
  · exact choice_no_replacement_subset _ _ _
  · omega
  · omega

/-! ### C2: empty pools -/

/-- C2 counterexample: sampling two venues from an empty pool silently
returns the empty list; no configuration error is raised. -/
theorem C2_counterexample : choice_no_replacement [0] ([] : List String) 2 = [] := rfl

/-- C2 amended: `choice_no_replacement` never fails: on an empty pool it
silently returns the empty selection, and in general it returns
`min k (pool.length)` elements.  Because the configured venue pool is
nonempty and the venue count is drawn from `randint(1, 3)`, every generated
`BeneficiaryFacts` still has at least one venue. -/
theorem C2_amended (picks : List Nat) (pool : List String) (k : Nat) :
    (choice_no_replacement picks pool k).length = min k pool.length ∧
    (pool = [] → choice_no_replacement picks pool k = []) ∧
    (pool ≠ [] → 1 ≤ k → 1 ≤ (choice_no_replacement picks pool k).length) ∧
    (∀ (rnd : BeneficiaryRand) (i : Nat),
      1 ≤ (mk_beneficiary rnd i).key_venues.length) := by
  refine ⟨choice_no_replacement_length _ _ _, ?_, ?_, ?_⟩
  · intro h
    subst h
    have hz := choice_no_replacement_length picks [] k
    simp at hz
    exact hz
  · intro hne hk
    have hlen : 0 < pool.length := List.length_pos.mpr hne
    rw [choice_no_replacement_length]
    omega
  · intro rnd i
    have hv := randint_bounds 1 3 rnd.nVenuesDraw (by omega)
    have hlenv : (mk_beneficiary rnd i).key_venues.length =
        min (randint 1 3 rnd.nVenuesDraw) 8 := by
      simp [mk_beneficiary, choice_no_replacement_length, VENUE_POOL]
    omega

theorem C2_amended_witness : 1 ≤ (choice_no_replacement [0] VENUE_POOL 2).length :=
  (C2_amended [0] VENUE_POOL 2).2.2.1 (by decide) (by omega)

/-! ### C7: determinism -/

/-- C7: the rough-draft synthesizer is a pure function of the random draws
and its inputs: equal random-source state (gate record) and equal visa
category and facts produce byte-identical text.  The recommenders need not
even agree, since `mk_rough_draft` never reads the recommender. -/
theorem C7_rough_deterministic (g₁ g₂ : RoughGates) (v₁ v₂ : String)
    (r₁ r₂ : Person) (b₁ b₂ : BeneficiaryFacts)
    (hg : g₁ = g₂) (hv : v₁ = v₂) (hb : b₁ = b₂) :
    mk_rough_draft g₁ v₁ r₁ b₁ = mk_rough_draft g₂ v₂ r₂ b₂ := by
  subst hg; subst hv; subst hb; rfl

theorem C7_rough_deterministic_witness :
    mk_rough_draft gOff "EB-1A" pEx bEx = mk_rough_draft gOff "EB-1A" pEx bEx :=
  C7_rough_deterministic gOff gOff "EB-1A" "EB-1A" pEx pEx bEx bEx rfl rfl rfl

/-! ### C5: count corruption -/

def gC5 : RoughGates := { gOff with wrongCount := true, signDown := true }

def bC5 : BeneficiaryFacts := { bEx with pubs := 1 }

/-- C5 counterexample: with true count 1 and a downward offset, the floor
`max(1, ...)` returns exactly the true count, so the corrupted
publication-count claim appended by the fired gate is not wrong. -/
theorem C5_counterexample :
    gC5.wrongCount = true ∧ bC5.pubs = 1 ∧
    maybe_wrong_count gC5.deltaDraw gC5.signDown bC5.pubs = bC5.pubs ∧
    wrongOrTrueCount gC5 bC5 = bC5.pubs ∧
    (countSentence bC5.pubs).data <:+: (roughEvidenceFull gC5 bC5).data :=
  ⟨rfl, rfl, rfl, rfl, by decide⟩

/-- C5 amended: the corrupted count is `max(1, pubs ± delta)` with
`delta = randint(5, 20)`; for every true count ≥ 2 it differs from the true
count, but for a true count of 1 a downward offset is floored back to 1; the
appended sentence carries the corrupted count when the gate fires and the
true count otherwise. -/
theorem C5_amended (g : RoughGates) (b : BeneficiaryFacts) :
    (5 ≤ 5 + g.deltaDraw % 16 ∧ 5 + g.deltaDraw % 16 ≤ 20) ∧
    maybe_wrong_count g.deltaDraw g.signDown b.pubs =
      (max 1 ((b.pubs : Int) +
        (if g.signDown then -(5 + (g.deltaDraw % 16 : Nat) : Int)
         else (5 + (g.deltaDraw % 16 : Nat) : Int)))).toNat ∧
    (2 ≤ b.pubs → maybe_wrong_count g.deltaDraw g.signDown b.pubs ≠ b.pubs) ∧
    (g.wrongCount = true →
      wrongOrTrueCount g b = maybe_wrong_count g.deltaDraw g.signDown b.pubs) ∧
    (g.wrongCount = false → wrongOrTrueCount g b = b.pubs) ∧
    (countSentence (wrongOrTrueCount g b)).data <:+: (roughEvidenceFull g b).data := by
  refine ⟨⟨by omega, by omega⟩, rfl, ?_, ?_, ?_, ?_⟩
  · intro hp
    cases hsd : g.signDown <;>
      simp only [maybe_wrong_count, hsd, if_true, if_false, Bool.false_eq_true,
        Bool.true_eq_false] <;>
    · have h16 : g.deltaDraw % 16 < 16 := Nat.mod_lt _ (by omega)
      rw [max_def]
      split <;> omega
  · intro h; simp [wrongOrTrueCount, h]
  · intro h; simp [wrongOrTrueCount, h]
  · rw [roughEvidenceFull]
    by_cases hh : g.halluc = true
    · rw [if_pos hh]
      simp only [String.data_append]
      exact sub_app_of_left _ (sub_app_of_right _ (List.infix_refl _))
    · rw [if_neg hh]
      simp only [String.data_append]
      exact sub_app_of_right _ (List.infix_refl _)

def bC5w : BeneficiaryFacts := { bEx with pubs := 2 }

theorem C5_amended_witness :
    maybe_wrong_count gC5.deltaDraw gC5.signDown bC5w.pubs ≠ bC5w.pubs :=
  (C5_amended gC5 bC5w).2.2.1 (by decide)

/-! ### C8: rendering facts with no awards -/

/-- C8: for facts with an empty award list, the fact renderer never fails:
its awards segment is exactly the placeholder "—" (the rendered paragraph is
the word-wrap of a text containing ". Awards: —."), the placeholder survives
word-wrapping, and the name, field, publication count, citation count and
comma-joined venue list all still occur in the rendered paragraph text. -/
theorem C8_empty_awards_placeholder (b : BeneficiaryFacts)
    (h : b.key_awards = []) :
    facts_to_string b = fill 120 (factsCore b) ∧
    factsCore b =
      b.name ++ " works in " ++ b.field ++ ". Publications: " ++
        Nat.repr b.pubs ++ ". Citations: " ++ Nat.repr b.citations ++
        ". Awards: " ++ "—" ++ ". Key venues: " ++
        joinStrs ", " b.key_venues ++ "." ∧
    '—' ∈ (facts_to_string b).data ∧
    b.name.data <:+: (factsCore b).data ∧
    b.field.data <:+: (factsCore b).data ∧
    (Nat.repr b.pubs).data <:+: (factsCore b).data ∧
    (Nat.repr b.citations).data <:+: (factsCore b).data ∧
    (joinStrs ", " b.key_venues).data <:+: (factsCore b).data := by
  have heq : factsCore b =
      b.name ++ " works in " ++ b.field ++ ". Publications: " ++
        Nat.repr b.pubs ++ ". Citations: " ++ Nat.repr b.citations ++
        ". Awards: " ++ "—" ++ ". Key venues: " ++
        joinStrs ", " b.key_venues ++ "." := by
    simp [factsCore, h]
  refine ⟨rfl, heq, ?_, ?_, ?_, ?_, ?_, ?_⟩
  · refine mem_fill_of_mem ?_ (by decide)
    rw [heq]
    simp only [String.data_append]
    exact List.mem_append.mpr (Or.inl (List.mem_append.mpr (Or.inl
      (List.mem_append.mpr (Or.inl (List.mem_append.mpr (Or.inr (by decide))))))))
  · rw [heq]
    simp only [String.data_append]
    exact sub_app_of_left _ (sub_app_of_left _ (sub_app_of_left _
      (sub_app_of_left _ (sub_app_of_left _ (sub_app_of_left _
        (sub_app_of_left _ (sub_app_of_left _ (sub_app_of_left _
          (sub_app_of_left _ (sub_app_of_left _ (List.infix_refl _)))))))))))
  · rw [heq]
    simp only [String.data_append]
    exact sub_app_of_left _ (sub_app_of_left _ (sub_app_of_left _
      (sub_app_of_left _ (sub_app_of_left _ (sub_app_of_left _
        (sub_app_of_left _ (sub_app_of_left _ (sub_app_of_left _
          (sub_app_of_right _ (List.infix_refl _))))))))))
  · rw [heq]
    simp only [String.data_append]
    exact sub_app_of_left _ (sub_app_of_left _ (sub_app_of_left _
      (sub_app_of_left _ (sub_app_of_left _ (sub_app_of_left _
        (sub_app_of_left _ (sub_app_of_right _ (List.infix_refl _))))))))
  · rw [heq]
    simp only [String.data_append]
    exact sub_app_of_left _ (sub_app_of_left _ (sub_app_of_left _
      (sub_app_of_left _ (sub_app_of_left _
        (sub_app_of_right _ (List.infix_refl _))))))
  · rw [heq]
    simp only [String.data_append]
    exact sub_app_of_left _ (sub_app_of_right _ (List.infix_refl _))

theorem C8_empty_awards_placeholder_witness :
    '—' ∈ (facts_to_string { bEx with key_awards := [] }).data :=
  (C8_empty_awards_placeholder { bEx with key_awards := [] } rfl).2.2.1

/-! ### C1: faithfulness of the final draft -/

theorem legal_evidence_eq_awards (b : BeneficiaryFacts) (h : b.key_awards ≠ []) :
    legal_evidence b =
      evidPubs b ++ " " ++ (evidAwards b ++ " " ++ evidVenues b) := by
  simp [legal_evidence, h, joinStrs]

theorem legal_evidence_eq_noawards (b : BeneficiaryFacts) (h : b.key_awards = []) :
    legal_evidence b = evidPubs b ++ " " ++ evidVenues b := by
  simp [legal_evidence, h, joinStrs]

theorem sub_evidPubs_lift {b : BeneficiaryFacts} {t : List Char}
    (h : t <:+: (evidPubs b).data) : t <:+: (legal_evidence b).data := by
  by_cases ha : b.key_awards = []
  · rw [legal_evidence_eq_noawards b ha]
    simp only [String.data_append]
    exact sub_app_of_left _ (sub_app_of_left _ h)
  · rw [legal_evidence_eq_awards b ha]
    simp only [String.data_append]
    exact sub_app_of_left _ (sub_app_of_left _ h)

theorem sub_evidVenues_lift {b : BeneficiaryFacts} {t : List Char}
    (h : t <:+: (evidVenues b).data) : t <:+: (legal_evidence b).data := by
  by_cases ha : b.key_awards = []
  · rw [legal_evidence_eq_noawards b ha]
    simp only [String.data_append]
    exact sub_app_of_right _ h
  · rw [legal_evidence_eq_awards b ha]
    simp only [String.data_append]
    exact sub_app_of_right _ (sub_app_of_right _ h)

/-- C1 amended: the final draft is the blank-line join of the 110-column
wraps of the three paragraphs, and every numeric fact, every award, every
venue and the visa category occurs verbatim in the corresponding paragraph
text before word-wrapping.  (Wrapping can replace an internal space of a
multi-word item with a line break, which is what the counterexample
exhibits, so the verbatim guarantee holds for the unwrapped paragraphs.) -/
theorem C1_amended (visa_type : String) (r : Person) (b : BeneficiaryFacts) :
    mk_final_draft visa_type r b =
      fill 110 (legal_intro visa_type r b) ++ "\n\n" ++
        fill 110 (legal_evidence b) ++ "\n\n" ++ fill 110 (legal_closing b) ∧
    visa_type.data <:+: (legal_intro visa_type r b).data ∧
    (Nat.repr b.pubs).data <:+: (legal_evidence b).data ∧
    (Nat.repr b.citations).data <:+: (legal_evidence b).data ∧
    (∀ a ∈ b.key_awards, a.data <:+: (legal_evidence b).data) ∧
    (∀ v ∈ b.key_venues, v.data <:+: (legal_evidence b).data) := by
  refine ⟨rfl, ?_, ?_, ?_, ?_, ?_⟩
  · rw [legal_intro]
    simp only [String.data_append]
    exact sub_app_of_left _ (sub_app_of_left _ (sub_app_of_left _
      (sub_app_of_left _ (sub_app_of_left _ (sub_app_of_left _
        (sub_app_of_left _ (sub_app_of_left _ (sub_app_of_left _
          (sub_app_of_right _ (List.infix_refl _))))))))))
  · refine sub_evidPubs_lift ?_
    rw [evidPubs]
    simp only [String.data_append]
    exact sub_app_of_left _ (sub_app_of_left _ (sub_app_of_left _
      (sub_app_of_right _ (List.infix_refl _))))
  · refine sub_evidPubs_lift ?_
    rw [evidPubs]
    simp only [String.data_append]
    exact sub_app_of_left _ (sub_app_of_right _ (List.infix_refl _))
  · intro a ha
    have hne : b.key_awards ≠ [] := by
      intro h; rw [h] at ha; simp at ha
    have hJ : a.data <:+: (joinStrs ", " b.key_awards).data :=
      mem_sub_joinStrs ", " a _ ha
    rw [legal_evidence_eq_awards b hne]
    simp only [String.data_append]
    refine sub_app_of_right _ (sub_app_of_left _ (sub_app_of_left _ ?_))
    rw [evidAwards]
    simp only [String.data_append]
    exact sub_app_of_left _ (sub_app_of_right _ hJ)
  · intro v hv
    have hJ : v.data <:+: (joinStrs ", " b.key_venues).data :=
      mem_sub_joinStrs ", " v _ hv
    refine sub_evidVenues_lift ?_
    rw [evidVenues]
    simp only [String.data_append]
    exact sub_app_of_left _ (sub_app_of_left _ (sub_app_of_left _
      (sub_app_of_right _ hJ)))

theorem C1_amended_witness :
    "ACM Best Paper Award".data <:+: (legal_evidence bEx).data :=
  (C1_amended "EB-1A" pEx bEx).2.2.2.2.1 "ACM Best Paper Award" (by decide)

def bC1 : BeneficiaryFacts :=
  { name := "Dr. Alex aaaaaaaaaaaaaaaaaaaaaaaaaaaaaaaaaaaaaaaa", field := "NLP",
    pubs := 22, citations := 1400, key_awards := ["ACM Best Paper Award"],
    key_venues := ["ACL", "EMNLP"] }

/-- C1 counterexample: for this record the 110-column wrap of the evidence
paragraph breaks the line inside "ACM Best Paper Award", so the award from
`key_awards` is not a verbatim substring of the rendered final draft. -/
theorem C1_counterexample :
    "ACM Best Paper Award" ∈ bC1.key_awards ∧
    ¬ ("ACM Best Paper Award".data <:+: (mk_final_draft "EB-1A" pEx bC1).data) := by
  refine ⟨by decide, ?_⟩
  intro h
  have hnl : '\n' ∉ "ACM Best Paper Award".data := by decide
  rw [mk_final_draft] at h
  simp only [String.data_append] at h
  simp only [List.append_assoc, List.cons_append, List.singleton_append,
    List.nil_append] at h
  rcases sub_sep hnl h with h | h
  · exact (by decide : ¬ ("ACM Best Paper Award".data <:+:
      (fill 110 (legal_intro "EB-1A" pEx bC1)).data)) h
  rcases sub_sep hnl (show "ACM Best Paper Award".data <:+:
      ([] : List Char) ++ '\n' :: _ from h) with h | h
  · exact absurd (eq_nil_of_sub_nil h) (by decide)
  rcases sub_sep hnl h with h | h
  · exact (by decide : ¬ ("ACM Best Paper Award".data <:+:
      (fill 110 (legal_evidence bC1)).data)) h
  rcases sub_sep hnl (show "ACM Best Paper Award".data <:+:
      ([] : List Char) ++ '\n' :: _ from h) with h | h
  · exact absurd (eq_nil_of_sub_nil h) (by decide)
  · exact (by decide : ¬ ("ACM Best Paper Award".data <:+:
      (fill 110 (legal_closing bC1)).data)) h

/-! ### C4: section omission -/

def gC4 : RoughGates :=
  { gOff with styleWeak := true, sectionMiss := true, dropFirstCoin := true }

/-- C4 counterexample: with the style-weakening filler prepended and the
section-omission coin landing on `pop(0)`, the removed segment is the filler
sentence, not the intro and not the closing: the draft keeps both the intro
and the closing (whose visa token "EB-1A" is present) but lost the filler. -/
theorem C4_counterexample :
    gC4.sectionMiss = true ∧ gC4.styleWeak = true ∧
    chunksAfterStyle gC4 "EB-1A" bEx =
      [fillerSentence, roughIntro bEx, roughEvidenceFull gC4 bEx,
        roughClosing gC4 "EB-1A"] ∧
    chunksAfterMiss gC4 "EB-1A" bEx =
      [roughIntro bEx, roughEvidenceFull gC4 bEx, roughClosing gC4 "EB-1A"] ∧
    ¬ (fillerSentence.data <:+: (mk_rough_draft gC4 "EB-1A" pEx bEx).data) ∧
    "I am writing to recommend".data <:+: (mk_rough_draft gC4 "EB-1A" pEx bEx).data ∧
    "EB-1A".data <:+: (mk_rough_draft gC4 "EB-1A" pEx bEx).data :=
  ⟨rfl, rfl, rfl, by decide, by decide, by decide, by decide⟩

/-- C4 amended: whenever the section-omission gate fires, exactly one chunk
is removed and at least two remain; the coin decides between removing the
first chunk -- which is the style filler when one was prepended, the intro
otherwise -- and removing the last chunk, the closing. -/
theorem C4_amended (g : RoughGates) (v : String) (b : BeneficiaryFacts)
    (h : g.sectionMiss = true) :
    (chunksAfterMiss g v b).length + 1 = (chunksAfterStyle g v b).length ∧
    2 ≤ (chunksAfterMiss g v b).length ∧
    (g.dropFirstCoin = true →
      chunksAfterMiss g v b = (chunksAfterStyle g v b).drop 1 ∧
      (chunksAfterStyle g v b).head? =
        some (if g.styleWeak then fillerSentence else roughIntro b)) ∧
    (g.dropFirstCoin = false →
      chunksAfterMiss g v b = (chunksAfterStyle g v b).dropLast ∧
      (chunksAfterStyle g v b).getLast? = some (roughClosing g v)) := by
  cases hc : g.dropFirstCoin <;> cases hs : g.styleWeak <;>
    simp [chunksAfterMiss, chunksAfterStyle, h, hc, hs]

theorem C4_amended_witness : 2 ≤ (chunksAfterMiss gC4 "EB-1A" bEx).length :=
  (C4_amended gC4 "EB-1A" bEx rfl).2.1

/-! ### C9: real awards and the rough draft -/

def bC9 : BeneficiaryFacts :=
  { name := "Dr. Alex 1", field := "NLP", pubs := 22, citations := 1400,
    key_awards := ["IEEE Fellow"], key_venues := ["IEEE Fellow"] }

/-- C9 counterexample: the claim quantifies over every input; if a fact field
itself contains a real-award-pool string (here a venue string equal to
"IEEE Fellow", which is also in `key_awards`), the rough draft does contain
an entry of the real award pool. -/
theorem C9_counterexample :
    "IEEE Fellow" ∈ AWARD_POOL ∧ "IEEE Fellow" ∈ bC9.key_awards ∧
    "IEEE Fellow".data <:+: (mk_rough_draft gOff "EB-1A" pEx bC9).data :=
  ⟨by decide, by decide, by decide⟩

/-- C9 amended: the rough-draft synthesizer reads `key_awards` only to test
emptiness -- replacing it by any list of the same emptiness leaves the draft
unchanged, so the beneficiary's real awards are never copied into a rough
draft -- and the hallucination gate draws only from the fixed fabricated
pool, which shares no entry with the real award pool.  (A real-pool string
can appear only when some other fact field happens to contain it.) -/
theorem C9_amended (g : RoughGates) (v : String) (r : Person)
    (b : BeneficiaryFacts) (awards' : List String)
    (h : awards' = [] ↔ b.key_awards = []) :
    mk_rough_draft g v r { b with key_awards := awards' } =
      mk_rough_draft g v r b ∧
    rchoice FAKE_AWARD_POOL g.fakeDraw ∈ FAKE_AWARD_POOL ∧
    hallucSentence g =
      " They also received the " ++ rchoice FAKE_AWARD_POOL g.fakeDraw ++ "." ∧
    (∀ f ∈ FAKE_AWARD_POOL, f ∉ AWARD_POOL) := by
  refine ⟨?_, rchoice_mem _ _ (by decide), rfl, by decide⟩
  obtain ⟨n, f, p, c, ka, kv⟩ := b
  by_cases hb : ka = []
  · have ha : awards' = [] := h.mpr hb
    subst ha; subst hb; rfl
  · have ha : awards' ≠ [] := fun hh => hb (h.mp hh)
    have hiff : (awards' ≠ [] ∧ g.omitAwardCoin = true) ↔
        (ka ≠ [] ∧ g.omitAwardCoin = true) := by
      constructor <;> rintro ⟨_, h2⟩
      · exact ⟨hb, h2⟩
      · exact ⟨ha, h2⟩
    simp only [mk_rough_draft, roughBody, chunksFinal, chunksAfterMiss,
      chunksAfterStyle, roughEvidenceFull, roughEvidenceAfterOmit,
      roughEvidenceBase, roughIntro, wrongOrTrueCount]
    simp [hiff]

theorem C9_amended_witness :
    mk_rough_draft gOff "EB-1A" pEx { bEx with key_awards := ["IEEE Fellow"] } =
      mk_rough_draft gOff "EB-1A" pEx bEx :=
  (C9_amended gOff "EB-1A" pEx bEx ["IEEE Fellow"] (by simp [bEx])).1

/-! ### Character provenance of the rough draft -/

theorem mem_joinStrs {c : Char} (sep : String) :
    ∀ (l : List String), c ∈ (joinStrs sep l).data →
      c ∈ sep.data ∨ ∃ s ∈ l, c ∈ s.data := by
  intro l
  induction l with
  | nil => intro h; simp [joinStrs] at h
  | cons x ys ih =>
      intro h
      match ys with
      | [] => exact Or.inr ⟨x, by simp, by simpa [joinStrs] using h⟩
      | y :: ys' =>
          rw [joinStrs_data_cons] at h
          rcases List.mem_append.mp h with h1 | h2
          · rcases List.mem_append.mp h1 with h3 | h4
            · exact Or.inr ⟨x, by simp, h3⟩
            · exact Or.inl h4
          · rcases ih h2 with h3 | ⟨s, hs, hcs⟩
            · exact Or.inl h3
            · exact Or.inr ⟨s, by simp [hs], hcs⟩

/-- Every fixed template string a rough draft can draw characters from. -/
def roughLitStrs : List String :=
  [fillerSentence, "I am writing to recommend ", ". ",
   " is a talented researcher in ", ".",
   "They have many publications and their work is known at venues like ", ", ",
   "They have many publications and are recognized in their field.",
   "Their work is recognized at top venues.",
   " They have around ", " publications.", " They also received the ",
   "Best Innovator 2022", "Global Genius Prize", "World AI Medal",
   "I believe they are highly qualified.",
   "I believe they are qualified for the ", " visa.",
   "EB-1A", "O-1A", "NIW", passiveFiller]

/-- Where a character of a rough draft can come from: a template literal, a
fact field, a decimal digit, or the visa argument. -/
def RoughChar (v : String) (b : BeneficiaryFacts) (c : Char) : Prop :=
  c = ' ' ∨ (∃ s ∈ roughLitStrs, c ∈ s.data) ∨ c ∈ b.name.data ∨
    c ∈ b.field.data ∨ (∃ s ∈ b.key_venues, c ∈ s.data) ∨
    c.isDigit = true ∨ c ∈ v.data

theorem visa_filter_ne_nil (v : String) :
    VISA_TYPES.filter (fun x => x ≠ v) ≠ [] := by
  intro h
  rw [List.filter_eq_nil_iff] at h
  have h1 := h "EB-1A" (by simp [VISA_TYPES])
  have h2 := h "O-1A" (by simp [VISA_TYPES])
  simp at h1 h2
  exact absurd (h1.trans h2.symm) (by decide)

theorem wrong_visa_mem (g : RoughGates) (v : String) :
    wrong_visa g v ∈ VISA_TYPES := by
  have := rchoice_mem (VISA_TYPES.filter (fun x => x ≠ v)) g.wrongVisaDraw
    (visa_filter_ne_nil v)
  exact (List.mem_filter.mp this).1

theorem roughChar_intro {c : Char} (v : String) (b : BeneficiaryFacts)
    (h : c ∈ (roughIntro b).data) : RoughChar v b c := by
  simp only [roughIntro, String.data_append, List.mem_append] at h
  rcases h with (((((hc | hc) | hc) | hc) | hc) | hc) | hc
  · exact Or.inr (Or.inl ⟨"I am writing to recommend ", by simp [roughLitStrs], hc⟩)
  · exact Or.inr (Or.inr (Or.inl hc))
  · exact Or.inr (Or.inl ⟨". ", by simp [roughLitStrs], hc⟩)
  · exact Or.inr (Or.inr (Or.inl hc))
  · exact Or.inr (Or.inl ⟨" is a talented researcher in ", by simp [roughLitStrs], hc⟩)
  · exact Or.inr (Or.inr (Or.inr (Or.inl hc)))
  · exact Or.inr (Or.inl ⟨".", by simp [roughLitStrs], hc⟩)

theorem roughChar_evBase {c : Char} (v : String) (b : BeneficiaryFacts)
    (h : c ∈ (roughEvidenceBase b).data) : RoughChar v b c := by
  simp only [roughEvidenceBase, String.data_append, List.mem_append] at h
  rcases h with (hc | hc) | hc
  · exact Or.inr (Or.inl
      ⟨"They have many publications and their work is known at venues like ",
        by simp [roughLitStrs], hc⟩)
  · rcases mem_joinStrs ", " b.key_venues hc with h1 | ⟨s, hs, hcs⟩
    · exact Or.inr (Or.inl ⟨", ", by simp [roughLitStrs], h1⟩)
    · exact Or.inr (Or.inr (Or.inr (Or.inr (Or.inl ⟨s, hs, hcs⟩))))
  · exact Or.inr (Or.inl ⟨".", by simp [roughLitStrs], hc⟩)

theorem roughChar_evFull {c : Char} (v : String) (g : RoughGates)
    (b : BeneficiaryFacts) (h : c ∈ (roughEvidenceFull g b).data) :
    RoughChar v b c := by
  rw [roughEvidenceFull] at h
  have hcount : c ∈ (countSentence (wrongOrTrueCount g b)).data → RoughChar v b c := by
    intro hc
    simp only [countSentence, String.data_append, List.mem_append] at hc
    rcases hc with (h1 | h2) | h3
    · exact Or.inr (Or.inl ⟨" They have around ", by simp [roughLitStrs], h1⟩)
    · exact Or.inr (Or.inr (Or.inr (Or.inr (Or.inr (Or.inl
        (repr_chars_digit _ _ h2))))))
    · exact Or.inr (Or.inl ⟨" publications.", by simp [roughLitStrs], h3⟩)
  have homit : c ∈ (roughEvidenceAfterOmit g b).data → RoughChar v b c := by
    intro hc
    rw [roughEvidenceAfterOmit] at hc
    by_cases ho : g.omitFact = true
    · rw [if_pos ho] at hc
      by_cases haw : b.key_awards ≠ [] ∧ g.omitAwardCoin = true
      · rw [if_pos haw] at hc
        exact Or.inr (Or.inl
          ⟨"They have many publications and are recognized in their field.",
            by simp [roughLitStrs], hc⟩)
      · rw [if_neg haw] at hc
        exact Or.inr (Or.inl ⟨"Their work is recognized at top venues.",
          by simp [roughLitStrs], hc⟩)
    · rw [if_neg ho] at hc
      exact roughChar_evBase v b hc
  have hhal : c ∈ (hallucSentence g).data → RoughChar v b c := by
    intro hc
    simp only [hallucSentence, String.data_append, List.mem_append] at hc
    rcases hc with (h1 | h2) | h3
    · exact Or.inr (Or.inl ⟨" They also received the ", by simp [roughLitStrs], h1⟩)
    · have hm : rchoice FAKE_AWARD_POOL g.fakeDraw = "Best Innovator 2022" ∨
          rchoice FAKE_AWARD_POOL g.fakeDraw = "Global Genius Prize" ∨
          rchoice FAKE_AWARD_POOL g.fakeDraw = "World AI Medal" := by
        have hmem := rchoice_mem FAKE_AWARD_POOL g.fakeDraw (by decide)
        simpa [FAKE_AWARD_POOL] using hmem
      rcases hm with he | he | he <;> rw [he] at h2
      · exact Or.inr (Or.inl ⟨"Best Innovator 2022", by simp [roughLitStrs], h2⟩)
      · exact Or.inr (Or.inl ⟨"Global Genius Prize", by simp [roughLitStrs], h2⟩)
      · exact Or.inr (Or.inl ⟨"World AI Medal", by simp [roughLitStrs], h2⟩)
    · exact Or.inr (Or.inl ⟨".", by simp [roughLitStrs], h3⟩)
  by_cases hh : g.halluc = true
  · rw [if_pos hh] at h
    simp only [String.data_append, List.mem_append] at h
    rcases h with (h1 | h2) | h3
    · exact homit h1
    · exact hcount h2
    · exact hhal h3
  · rw [if_neg hh] at h
    simp only [String.data_append, List.mem_append] at h
    rcases h with h1 | h2
    · exact homit h1
    · exact hcount h2

theorem roughChar_closing {c : Char} (g : RoughGates) (v : String)
    (b : BeneficiaryFacts) (h : c ∈ (roughClosing g v).data) : RoughChar v b c := by
  rw [roughClosing] at h
  by_cases hw : g.weakVisa = true
  · rw [if_pos hw] at h
    exact Or.inr (Or.inl ⟨"I believe they are highly qualified.",
      by simp [roughLitStrs], h⟩)
  · rw [if_neg hw] at h
    simp only [String.data_append, List.mem_append] at h
    rcases h with (h1 | h2) | h3
    · exact Or.inr (Or.inl ⟨"I believe they are qualified for the ",
        by simp [roughLitStrs], h1⟩)
    · exact Or.inr (Or.inr (Or.inr (Or.inr (Or.inr (Or.inr h2)))))
    · exact Or.inr (Or.inl ⟨" visa.", by simp [roughLitStrs], h3⟩)

theorem roughChar_misname {c : Char} (g : RoughGates) (v : String)
    (b : BeneficiaryFacts)
    (h : c ∈ ("I believe they are qualified for the " ++ wrong_visa g v ++ " visa.").data) :
    RoughChar v b c := by
  simp only [String.data_append, List.mem_append] at h
  rcases h with (h1 | h2) | h3
  · exact Or.inr (Or.inl ⟨"I believe they are qualified for the ",
      by simp [roughLitStrs], h1⟩)
  · have hm : wrong_visa g v = "EB-1A" ∨ wrong_visa g v = "O-1A" ∨
        wrong_visa g v = "NIW" := by
      have hmem := wrong_visa_mem g v
      simpa [VISA_TYPES] using hmem
    rcases hm with he | he | he <;> rw [he] at h2
    · exact Or.inr (Or.inl ⟨"EB-1A", by simp [roughLitStrs], h2⟩)
    · exact Or.inr (Or.inl ⟨"O-1A", by simp [roughLitStrs], h2⟩)
    · exact Or.inr (Or.inl ⟨"NIW", by simp [roughLitStrs], h2⟩)
  · exact Or.inr (Or.inl ⟨" visa.", by simp [roughLitStrs], h3⟩)

theorem chunksFinal_cases (g : RoughGates) (v : String) (b : BeneficiaryFacts) :
    ∀ ch ∈ chunksFinal g v b,
      ch = fillerSentence ∨ ch = roughIntro b ∨ ch = roughEvidenceFull g b ∨
      ch = roughClosing g v ∨
      ch = "I believe they are qualified for the " ++ wrong_visa g v ++ " visa." := by
  cases hm : g.misname <;> cases hs : g.sectionMiss <;>
    cases hd : g.dropFirstCoin <;> cases hw : g.styleWeak <;>
  · intro ch hch
    simp [chunksFinal, chunksAfterMiss, chunksAfterStyle, setLast,
      hm, hs, hd, hw] at hch
    tauto

theorem roughChar_body {c : Char} (g : RoughGates) (v : String)
    (b : BeneficiaryFacts) (h : c ∈ (roughBody g v b).data) : RoughChar v b c := by
  have hjoin : c ∈ (joinStrs " " (chunksFinal g v b)).data → RoughChar v b c := by
    intro hc
    rcases mem_joinStrs " " _ hc with h1 | ⟨s, hs, hcs⟩
    · left; simpa using h1
    · rcases chunksFinal_cases g v b s hs with rfl | rfl | rfl | rfl | rfl
      · exact Or.inr (Or.inl ⟨fillerSentence, by simp [roughLitStrs], hcs⟩)
      · exact roughChar_intro v b hcs
      · exact roughChar_evFull v g b hcs
      · exact roughChar_closing g v b hcs
      · exact roughChar_misname g v b hcs
  rw [roughBody] at h
  by_cases hp : g.passive = true
  · rw [if_pos hp] at h
    simp only [String.data_append, List.mem_append] at h
    rcases h with h1 | h2
    · exact hjoin h1
    · exact Or.inr (Or.inl ⟨passiveFiller, by simp [roughLitStrs], h2⟩)
  · rw [if_neg hp] at h
    exact hjoin h

/-- Any character of a rough draft is a space, a newline, or comes from a
template literal, a fact field, a decimal digit, or the visa argument. -/
theorem roughChar_draft {c : Char} (g : RoughGates) (v : String) (r : Person)
    (b : BeneficiaryFacts) (h : c ∈ (mk_rough_draft g v r b).data) :
    c = '\n' ∨ RoughChar v b c := by
  rcases mem_of_mem_fill h with h1 | h2
  · exact Or.inl h1
  · exact Or.inr (roughChar_body g v b h2)

/-! ### Character provenance of the final draft -/

def finalLitStrs : List String :=
  ["I am honored to recommend ", " for the ", " visa category. As ", " at ",
   ", I have closely followed ", "\x27s work in ", ".",
   " has authored ", " peer-reviewed publications with approximately ",
   " citations.", "Notably, ", " received ", ", ",
   "\x27s research appears at ", " and is widely recognized in ",
   "In summary, ",
   " demonstrates sustained national and international acclaim. ",
   "I strongly endorse this petition and am available for any additional information."]

/-- Where a character of a final draft can come from. -/
def FinalChar (v : String) (r : Person) (b : BeneficiaryFacts) (c : Char) : Prop :=
  c = ' ' ∨ c = '\n' ∨ (∃ s ∈ finalLitStrs, c ∈ s.data) ∨ c ∈ b.name.data ∨
    c ∈ b.field.data ∨ (∃ s ∈ b.key_awards, c ∈ s.data) ∨
    (∃ s ∈ b.key_venues, c ∈ s.data) ∨ c.isDigit = true ∨ c ∈ v.data ∨
    c ∈ r.title.data ∨ c ∈ r.affiliation.data

theorem finalChar_intro {c : Char} (v : String) (r : Person)
    (b : BeneficiaryFacts) (h : c ∈ (legal_intro v r b).data) :
    FinalChar v r b c := by
  simp only [legal_intro, String.data_append, List.mem_append] at h
  rcases h with (((((((((((hc | hc) | hc) | hc) | hc) | hc) | hc) | hc) | hc) |
    hc) | hc) | hc) | hc
  · exact Or.inr (Or.inr (Or.inl ⟨"I am honored to recommend ",
      by simp [finalLitStrs], hc⟩))
  · exact Or.inr (Or.inr (Or.inr (Or.inl hc)))
  · exact Or.inr (Or.inr (Or.inl ⟨" for the ", by simp [finalLitStrs], hc⟩))
  · exact Or.inr (Or.inr (Or.inr (Or.inr (Or.inr (Or.inr (Or.inr (Or.inr
      (Or.inl hc))))))))
  · exact Or.inr (Or.inr (Or.inl ⟨" visa category. As ",
      by simp [finalLitStrs], hc⟩))
  · exact Or.inr (Or.inr (Or.inr (Or.inr (Or.inr (Or.inr (Or.inr (Or.inr
      (Or.inr (Or.inl hc)))))))))
  · exact Or.inr (Or.inr (Or.inl ⟨" at ", by simp [finalLitStrs], hc⟩))
  · exact Or.inr (Or.inr (Or.inr (Or.inr (Or.inr (Or.inr (Or.inr (Or.inr
      (Or.inr (Or.inr hc)))))))))
  · exact Or.inr (Or.inr (Or.inl ⟨", I have closely followed ",
      by simp [finalLitStrs], hc⟩))
  · exact Or.inr (Or.inr (Or.inr (Or.inl hc)))
  · exact Or.inr (Or.inr (Or.inl ⟨"\x27s work in ", by simp [finalLitStrs], hc⟩))
  · exact Or.inr (Or.inr (Or.inr (Or.inr (Or.inl hc))))
  · exact Or.inr (Or.inr (Or.inl ⟨".", by simp [finalLitStrs], hc⟩))

theorem finalChar_evidence {c : Char} (v : String) (r : Person)
    (b : BeneficiaryFacts) (h : c ∈ (legal_evidence b).data) :
    FinalChar v r b c := by
  have hpubs : c ∈ (evidPubs b).data → FinalChar v r b c := by
    intro hc
    simp only [evidPubs, String.data_append, List.mem_append] at hc
    rcases hc with ((((hc | hc) | hc) | hc) | hc) | hc
    · exact Or.inr (Or.inr (Or.inr (Or.inl hc)))
    · exact Or.inr (Or.inr (Or.inl ⟨" has authored ", by simp [finalLitStrs], hc⟩))
    · exact Or.inr (Or.inr (Or.inr (Or.inr (Or.inr (Or.inr (Or.inr (Or.inl
        (repr_chars_digit _ _ hc))))))))
    · exact Or.inr (Or.inr (Or.inl
        ⟨" peer-reviewed publications with approximately ",
          by simp [finalLitStrs], hc⟩))
    · exact Or.inr (Or.inr (Or.inr (Or.inr (Or.inr (Or.inr (Or.inr (Or.inl
        (repr_chars_digit _ _ hc))))))))
    · exact Or.inr (Or.inr (Or.inl ⟨" citations.", by simp [finalLitStrs], hc⟩))
  have hawards : c ∈ (evidAwards b).data → FinalChar v r b c := by
    intro hc
    simp only [evidAwards, String.data_append, List.mem_append] at hc
    rcases hc with (((hc | hc) | hc) | hc) | hc
    · exact Or.inr (Or.inr (Or.inl ⟨"Notably, ", by simp [finalLitStrs], hc⟩))
    · exact Or.inr (Or.inr (Or.inr (Or.inl hc)))
    · exact Or.inr (Or.inr (Or.inl ⟨" received ", by simp [finalLitStrs], hc⟩))
    · rcases mem_joinStrs ", " b.key_awards hc with h1 | ⟨s, hs, hcs⟩
      · exact Or.inr (Or.inr (Or.inl ⟨", ", by simp [finalLitStrs], h1⟩))
      · exact Or.inr (Or.inr (Or.inr (Or.inr (Or.inr (Or.inl ⟨s, hs, hcs⟩)))))
    · exact Or.inr (Or.inr (Or.inl ⟨".", by simp [finalLitStrs], hc⟩))
  have hvenues : c ∈ (evidVenues b).data → FinalChar v r b c := by
    intro hc
    simp only [evidVenues, String.data_append, List.mem_append] at hc
    rcases hc with ((((hc | hc) | hc) | hc) | hc) | hc
    · exact Or.inr (Or.inr (Or.inr (Or.inl hc)))
    · exact Or.inr (Or.inr (Or.inl ⟨"\x27s research appears at ",
        by simp [finalLitStrs], hc⟩))
    · rcases mem_joinStrs ", " b.key_venues hc with h1 | ⟨s, hs, hcs⟩
      · exact Or.inr (Or.inr (Or.inl ⟨", ", by simp [finalLitStrs], h1⟩))
      · exact Or.inr (Or.inr (Or.inr (Or.inr (Or.inr (Or.inr (Or.inl
          ⟨s, hs, hcs⟩))))))
    · exact Or.inr (Or.inr (Or.inl ⟨" and is widely recognized in ",
        by simp [finalLitStrs], hc⟩))
    · exact Or.inr (Or.inr (Or.inr (Or.inr (Or.inl hc))))
    · exact Or.inr (Or.inr (Or.inl ⟨".", by simp [finalLitStrs], hc⟩))
  rw [legal_evidence] at h
  rcases mem_joinStrs " " _ h with h1 | ⟨s, hs, hcs⟩
  · left; simpa using h1
  · by_cases ha : b.key_awards = []
    · simp [ha] at hs
      rcases hs with rfl | rfl
      · exact hpubs hcs
      · exact hvenues hcs
    · simp [ha] at hs
      rcases hs with rfl | rfl | rfl
      · exact hpubs hcs
      · exact hawards hcs
      · exact hvenues hcs

theorem finalChar_closing {c : Char} (v : String) (r : Person)
    (b : BeneficiaryFacts) (h : c ∈ (legal_closing b).data) :
    FinalChar v r b c := by
  simp only [legal_closing, String.data_append, List.mem_append] at h
  rcases h with ((hc | hc) | hc) | hc
  · exact Or.inr (Or.inr (Or.inl ⟨"In summary, ", by simp [finalLitStrs], hc⟩))
  · exact Or.inr (Or.inr (Or.inr (Or.inl hc)))
  · exact Or.inr (Or.inr (Or.inl
      ⟨" demonstrates sustained national and international acclaim. ",
        by simp [finalLitStrs], hc⟩))
  · exact Or.inr (Or.inr (Or.inl
      ⟨"I strongly endorse this petition and am available for any additional information.",
        by simp [finalLitStrs], hc⟩))

/-- Any character of a final draft is a space, a newline, or comes from a
fixed literal, a fact field, a digit, the visa, or the recommender's title or
affiliation -- never from the recommender's full name. -/
theorem finalChar_draft {c : Char} (v : String) (r : Person)
    (b : BeneficiaryFacts) (h : c ∈ (mk_final_draft v r b).data) :
    FinalChar v r b c := by
  simp only [mk_final_draft, String.data_append, List.mem_append] at h
  rcases h with (((hc | hc) | hc) | hc) | hc
  · rcases mem_of_mem_fill hc with h1 | h2
    · exact Or.inr (Or.inl h1)
    · exact finalChar_intro v r b h2
  · have : c = '\n' := by
      rcases (by simpa using hc : c = '\n' ∨ c = '\n') with h | h <;> exact h
    exact Or.inr (Or.inl this)
  · rcases mem_of_mem_fill hc with h1 | h2
    · exact Or.inr (Or.inl h1)
    · exact finalChar_evidence v r b h2
  · have : c = '\n' := by
      rcases (by simpa using hc : c = '\n' ∨ c = '\n') with h | h <;> exact h
    exact Or.inr (Or.inl this)
  · rcases mem_of_mem_fill hc with h1 | h2
    · exact Or.inr (Or.inl h1)
    · exact finalChar_closing v r b h2

/-! ### C10: the recommender and the drafts -/

def rbEx : BeneficiaryRand :=
  { fieldDraw := 0, pubsDraw := 0, citDraw := 0, nAwardsDraw := 0,
    awardPicks := [], nVenuesDraw := 0, venuePicks := [] }

def rrEx : RecommenderRand := { affDraw := 0, titleDraw := 0 }

/-- C10: the rough draft never reads the recommender: any two recommenders
give identical text.  The final draft reads only the recommender's title and
affiliation, so replacing the full name changes nothing.  For generated
cases (facts from `mk_beneficiary`, recommender from `mk_recommender`, visa
from the closed set) the full name "Dr. Jordan i" occurs in neither draft:
no other input can contribute its character 'J'. -/
theorem C10_recommender_private (g : RoughGates) (v : String)
    (r₁ r₂ : Person) (rnd : BeneficiaryRand) (rrnd : RecommenderRand)
    (b : BeneficiaryFacts) (i j : Nat) (hv : v ∈ VISA_TYPES) :
    mk_rough_draft g v r₁ b = mk_rough_draft g v r₂ b ∧
    (∀ nm : String,
      mk_final_draft v (Person.mk nm r₁.affiliation r₁.title) b =
        mk_final_draft v r₁ b) ∧
    ¬ ((mk_recommender rrnd j).full_name.data <:+:
        (mk_rough_draft g v r₁ (mk_beneficiary rnd i)).data) ∧
    ¬ ((mk_recommender rrnd j).full_name.data <:+:
        (mk_final_draft v (mk_recommender rrnd j) (mk_beneficiary rnd i)).data) := by
  have hJname : ∀ (k : Nat), 'J' ∉ ("Dr. Alex " ++ Nat.repr k).data := by
    intro k hk
    have h : 'J' ∈ (Nat.repr k).data := by simpa [String.data_append] using hk
    have := repr_chars_digit k 'J' h
    simp at this
  have hJven : ∀ s ∈ (mk_beneficiary rnd i).key_venues, 'J' ∉ s.data := by
    intro s hs
    have : s ∈ VENUE_POOL := by
      have hsub : (mk_beneficiary rnd i).key_venues ⊆ VENUE_POOL := by
        simp only [mk_beneficiary]
        exact choice_no_replacement_subset _ _ _
      exact hsub hs
    exact (by decide : ∀ s ∈ VENUE_POOL, 'J' ∉ s.data) s this
  have hJaw : ∀ s ∈ (mk_beneficiary rnd i).key_awards, 'J' ∉ s.data := by
    intro s hs
    have : s ∈ AWARD_POOL := by
      have hsub : (mk_beneficiary rnd i).key_awards ⊆ AWARD_POOL := by
        simp only [mk_beneficiary]
        exact choice_no_replacement_subset _ _ _
      exact hsub hs
    exact (by decide : ∀ s ∈ AWARD_POOL, 'J' ∉ s.data) s this
  have hJfield : 'J' ∉ (mk_beneficiary rnd i).field.data := by
    have : (mk_beneficiary rnd i).field ∈ FIELDS := by
      simp only [mk_beneficiary]
      exact rchoice_mem _ _ (by decide)
    exact (by decide : ∀ s ∈ FIELDS, 'J' ∉ s.data) _ this
  have hJn : 'J' ∉ (mk_beneficiary rnd i).name.data := by
    simp only [mk_beneficiary]
    exact hJname i
  have hJv : 'J' ∉ v.data :=
    (by decide : ∀ s ∈ VISA_TYPES, 'J' ∉ s.data) v hv
  have hJfull : 'J' ∈ (mk_recommender rrnd j).full_name.data := by
    simp only [mk_recommender, String.data_append]
    exact List.mem_append.mpr (Or.inl (by decide))
  refine ⟨rfl, fun nm => rfl, ?_, ?_⟩
  · intro h
    rcases roughChar_draft g v r₁ (mk_beneficiary rnd i) (h.subset hJfull)
      with h1 | h1
    · exact absurd h1 (by decide)
    · rcases h1 with h2 | ⟨s, hs, h2⟩ | h2 | h2 | ⟨s, hs, h2⟩ | h2 | h2
      · exact absurd h2 (by decide)
      · exact (by decide : ∀ s ∈ roughLitStrs, 'J' ∉ s.data) s hs h2
      · exact hJn h2
      · exact hJfield h2
      · exact hJven s hs h2
      · simp at h2
      · exact hJv h2
  · intro h
    have := finalChar_draft v (mk_recommender rrnd j) (mk_beneficiary rnd i)
      (h.subset hJfull)
    rcases this with h2 | h2 | ⟨s, hs, h2⟩ | h2 | h2 | ⟨s, hs, h2⟩ |
      ⟨s, hs, h2⟩ | h2 | h2 | h2 | h2
    · exact absurd h2 (by decide)
    · exact absurd h2 (by decide)
    · exact (by decide : ∀ s ∈ finalLitStrs, 'J' ∉ s.data) s hs h2
    · exact hJn h2
    · exact hJfield h2
    · exact hJaw s hs h2
    · exact hJven s hs h2
    · simp at h2
    · exact hJv h2
    · have : (mk_recommender rrnd j).title ∈ TITLE_POOL := by
        simp only [mk_recommender]
        exact rchoice_mem _ _ (by decide)
      exact (by decide : ∀ s ∈ TITLE_POOL, 'J' ∉ s.data) _ this h2
    · have : (mk_recommender rrnd j).affiliation ∈ ORG_POOL := by
        simp only [mk_recommender]
        exact rchoice_mem _ _ (by decide)
      exact (by decide : ∀ s ∈ ORG_POOL, 'J' ∉ s.data) _ this h2

theorem C10_recommender_private_witness :
    ¬ ((mk_recommender rrEx 1).full_name.data <:+:
        (mk_rough_draft gOff "EB-1A" pEx (mk_beneficiary rbEx 1)).data) :=
  (C10_recommender_private gOff "EB-1A" pEx pEx rbEx rrEx bEx 1 1
    (by decide)).2.2.1

/-! ### Token-avoidance surgery for C3

For a token free of spaces, commas, periods and newlines (such as a
visa-category name), infix facts split at those separator characters, so the
token must lie wholly inside one template literal, one fact field, or one
decimal number. -/

theorem sp_cons (R : List Char) : [' '] ++ R = ' ' :: R := rfl

theorem dotsp_cons (R : List Char) : ['.', ' '] ++ R = '.' :: ' ' :: R := rfl

theorem token_avoids_roughIntro {t : List Char} {b : BeneficiaryFacts}
    (hne : t ≠ []) (hsp : ' ' ∉ t) (hdot : '.' ∉ t)
    (hl1 : ¬ t <:+: "I am writing to recommend".data)
    (hl2 : ¬ t <:+: "is a talented researcher in".data)
    (hname : ¬ t <:+: b.name.data) (hfield : ¬ t <:+: b.field.data) :
    ¬ t <:+: (roughIntro b).data := by
  intro h
  rw [roughIntro] at h
  repeat rw [String.data_append] at h
  rw [show ("I am writing to recommend " : String).data =
      "I am writing to recommend".data ++ [' '] from rfl] at h
  rw [show (". " : String).data = ['.', ' '] from rfl] at h
  rw [show (" is a talented researcher in " : String).data =
      [' '] ++ ("is a talented researcher in".data ++ [' ']) from rfl] at h
  rw [show ("." : String).data = ['.'] from rfl] at h
  repeat (first | rw [List.append_assoc] at h | rw [sp_cons] at h |
    rw [dotsp_cons] at h)
  rcases sub_sep hsp h with h | h
  · exact hl1 h
  rcases sub_sep hdot h with h | h
  · exact hname h
  rcases sub_sep hsp (show t <:+: ([] : List Char) ++ ' ' :: _ from h) with h | h
  · exact hne (eq_nil_of_sub_nil h)
  rcases sub_sep hsp h with h | h
  · exact hname h
  rcases sub_sep hsp h with h | h
  · exact hl2 h
  rcases sub_sep hdot h with h | h
  · exact hfield h
  · exact hne (eq_nil_of_sub_nil h)

theorem token_avoids_evBase {t : List Char} {b : BeneficiaryFacts}
    (hne : t ≠ []) (hsp : ' ' ∉ t) (hcm : ',' ∉ t) (hdot : '.' ∉ t)
    (hl3 : ¬ t <:+:
      "They have many publications and their work is known at venues like".data)
    (hven : ∀ s ∈ b.key_venues, ¬ t <:+: s.data) :
    ¬ t <:+: (roughEvidenceBase b).data := by
  intro h
  rw [roughEvidenceBase] at h
  repeat rw [String.data_append] at h
  rw [show ("They have many publications and their work is known at venues like " :
      String).data =
      "They have many publications and their work is known at venues like".data ++
        [' '] from rfl] at h
  rw [show ("." : String).data = ['.'] from rfl] at h
  repeat (first | rw [List.append_assoc] at h | rw [sp_cons] at h |
    rw [dotsp_cons] at h)
  rcases sub_sep hsp h with h | h
  · exact hl3 h
  rcases sub_sep hdot h with h | h
  · rcases sub_joinComma hne hsp hcm _ h with ⟨s, hs, hsub⟩
    exact hven s hs hsub
  · exact hne (eq_nil_of_sub_nil h)

theorem token_avoids_countSentence {t : List Char} (n : Nat)
    (hne : t ≠ []) (hsp : ' ' ∉ t)
    (hdig : ∃ c ∈ t, c.isDigit = false)
    (hl6 : ¬ t <:+: "They have around".data)
    (hl7 : ¬ t <:+: "publications.".data) :
    ¬ t <:+: (countSentence n).data := by
  intro h
  rw [countSentence] at h
  repeat rw [String.data_append] at h
  rw [show (" They have around " : String).data =
      [' '] ++ ("They have around".data ++ [' ']) from rfl] at h
  rw [show (" publications." : String).data =
      [' '] ++ "publications.".data from rfl] at h
  repeat (first | rw [List.append_assoc] at h | rw [sp_cons] at h |
    rw [dotsp_cons] at h)
  rcases sub_sep hsp (show t <:+: ([] : List Char) ++ ' ' :: _ from h) with h | h
  · exact hne (eq_nil_of_sub_nil h)
  rcases sub_sep hsp h with h | h
  · exact hl6 h
  rcases sub_sep hsp h with h | h
  · obtain ⟨c, hct, hcd⟩ := hdig
    exact not_sub_repr hct hcd n h
  · exact hl7 h

theorem token_avoids_hallucSentence {t : List Char} {g : RoughGates}
    (hne : t ≠ []) (hsp : ' ' ∉ t) (hdot : '.' ∉ t)
    (hl8 : ¬ t <:+: "They also received the".data)
    (hfake : ∀ f ∈ FAKE_AWARD_POOL, ¬ t <:+: f.data) :
    ¬ t <:+: (hallucSentence g).data := by
  intro h
  rw [hallucSentence] at h
  repeat rw [String.data_append] at h
  rw [show (" They also received the " : String).data =
      [' '] ++ ("They also received the".data ++ [' ']) from rfl] at h
  rw [show ("." : String).data = ['.'] from rfl] at h
  repeat (first | rw [List.append_assoc] at h | rw [sp_cons] at h |
    rw [dotsp_cons] at h)
  rcases sub_sep hsp (show t <:+: ([] : List Char) ++ ' ' :: _ from h) with h | h
  · exact hne (eq_nil_of_sub_nil h)
  rcases sub_sep hsp h with h | h
  · exact hl8 h
  rcases sub_sep hdot h with h | h
  · exact hfake _ (rchoice_mem _ _ (by decide)) h
  · exact hne (eq_nil_of_sub_nil h)

theorem token_avoids_evFull {t : List Char} {g : RoughGates}
    {b : BeneficiaryFacts}
    (hne : t ≠ []) (hsp : ' ' ∉ t) (hcm : ',' ∉ t) (hdot : '.' ∉ t)
    (hdig : ∃ c ∈ t, c.isDigit = false)
    (hl3 : ¬ t <:+:
      "They have many publications and their work is known at venues like".data)
    (homit1 : ¬ t <:+:
      "They have many publications and are recognized in their field.".data)
    (homit2 : ¬ t <:+: "Their work is recognized at top venues.".data)
    (hl6 : ¬ t <:+: "They have around".data)
    (hl7 : ¬ t <:+: "publications.".data)
    (hl8 : ¬ t <:+: "They also received the".data)
    (hfake : ∀ f ∈ FAKE_AWARD_POOL, ¬ t <:+: f.data)
    (hven : ∀ s ∈ b.key_venues, ¬ t <:+: s.data) :
    ¬ t <:+: (roughEvidenceFull g b).data := by
  have homitAll : ¬ t <:+: (roughEvidenceAfterOmit g b).data := by
    rw [roughEvidenceAfterOmit]
    by_cases ho : g.omitFact = true
    · rw [if_pos ho]
      by_cases haw : b.key_awards ≠ [] ∧ g.omitAwardCoin = true
      · rw [if_pos haw]; exact homit1
      · rw [if_neg haw]; exact homit2
    · rw [if_neg ho]
      exact token_avoids_evBase hne hsp hcm hdot hl3 hven
  have hcs : ¬ t <:+: (countSentence (wrongOrTrueCount g b)).data :=
    token_avoids_countSentence _ hne hsp hdig hl6 hl7
  have hhal : ¬ t <:+: (hallucSentence g).data :=
    token_avoids_hallucSentence hne hsp hdot hl8 hfake
  intro h
  rw [roughEvidenceFull] at h
  have hCsplit : (countSentence (wrongOrTrueCount g b)).data =
      [' '] ++ ("They have around".data ++ ([' '] ++
        ((Nat.repr (wrongOrTrueCount g b)).data ++
          ([' '] ++ "publications.".data)))) := rfl
  have hHsplit : (hallucSentence g).data =
      [' '] ++ ("They also received the".data ++ ([' '] ++
        ((rchoice FAKE_AWARD_POOL g.fakeDraw).data ++ ['.']))) := rfl
  by_cases hh : g.halluc = true
  · rw [if_pos hh] at h
    repeat rw [String.data_append] at h
    rw [hCsplit, hHsplit] at h
    repeat (first | rw [List.append_assoc] at h | rw [sp_cons] at h |
      rw [dotsp_cons] at h)
    rcases sub_sep hsp h with h | h
    · exact homitAll h
    rcases sub_sep hsp h with h | h
    · exact hl6 h
    rcases sub_sep hsp h with h | h
    · obtain ⟨c, hct, hcd⟩ := hdig
      exact not_sub_repr hct hcd _ h
    rcases sub_sep hsp
      (show t <:+: ("publications.".data) ++ ' ' :: _ from h) with h | h
    · exact hl7 h
    rcases sub_sep hsp h with h | h
    · exact hl8 h
    rcases sub_sep hdot h with h | h
    · exact hfake _ (rchoice_mem _ _ (by decide)) h
    · exact hne (eq_nil_of_sub_nil h)
  · rw [if_neg hh] at h
    repeat rw [String.data_append] at h
    rw [hCsplit] at h
    repeat (first | rw [List.append_assoc] at h | rw [sp_cons] at h |
      rw [dotsp_cons] at h)
    rcases sub_sep hsp h with h | h
    · exact homitAll h
    rcases sub_sep hsp h with h | h
    · exact hl6 h
    rcases sub_sep hsp h with h | h
    · obtain ⟨c, hct, hcd⟩ := hdig
      exact not_sub_repr hct hcd _ h
    · exact hl7 h

theorem token_avoids_gen_name {t : List Char} (i : Nat) (hne : t ≠ [])
    (hsp : ' ' ∉ t) (hdot : '.' ∉ t) (hdig : ∃ c ∈ t, c.isDigit = false)
    (hDr : ¬ t <:+: "Dr".data) (hAlex : ¬ t <:+: "Alex".data) :
    ¬ t <:+: ("Dr. Alex " ++ Nat.repr i).data := by
  intro h
  repeat rw [String.data_append] at h
  rw [show ("Dr. Alex " : String).data =
      "Dr".data ++ (['.', ' '] ++ ("Alex".data ++ [' '])) from rfl] at h
  repeat (first | rw [List.append_assoc] at h | rw [sp_cons] at h |
    rw [dotsp_cons] at h)
  rcases sub_sep hdot h with h | h
  · exact hDr h
  rcases sub_sep hsp (show t <:+: ([] : List Char) ++ ' ' :: _ from h) with h | h
  · exact hne (eq_nil_of_sub_nil h)
  rcases sub_sep hsp h with h | h
  · exact hAlex h
  · obtain ⟨c, hct, hcd⟩ := hdig
    exact not_sub_repr hct hcd i h

/-- In the drop-closing scenario (section omission fired, coin on the
`chunks[:-1]` branch, misnaming gate off) the draft consists of the optional
filler, the intro and the evidence chunk; a token avoiding spaces, commas,
periods, newlines and pure digit strings, and not occurring in any template
literal or fact field, cannot occur in the draft. -/
theorem token_avoids_dropclosing_draft {t : List Char} (g : RoughGates)
    (v : String) (r : Person) (b : BeneficiaryFacts)
    (hmiss : g.sectionMiss = true) (hcoin : g.dropFirstCoin = false)
    (hmis : g.misname = false)
    (hne : t ≠ []) (hsp : ' ' ∉ t) (hcm : ',' ∉ t) (hdot : '.' ∉ t)
    (hnl : '\n' ∉ t) (hdig : ∃ c ∈ t, c.isDigit = false)
    (hfiller : ¬ t <:+: fillerSentence.data)
    (hl1 : ¬ t <:+: "I am writing to recommend".data)
    (hl2 : ¬ t <:+: "is a talented researcher in".data)
    (hl3 : ¬ t <:+:
      "They have many publications and their work is known at venues like".data)
    (homit1 : ¬ t <:+:
      "They have many publications and are recognized in their field.".data)
    (homit2 : ¬ t <:+: "Their work is recognized at top venues.".data)
    (hl6 : ¬ t <:+: "They have around".data)
    (hl7 : ¬ t <:+: "publications.".data)
    (hl8 : ¬ t <:+: "They also received the".data)
    (hfake : ∀ f ∈ FAKE_AWARD_POOL, ¬ t <:+: f.data)
    (hpassLit : ¬ t <:+:
      "Their contributions have been considered impactful by many, in ways that are thought to be significant.".data)
    (hname : ¬ t <:+: b.name.data) (hfield : ¬ t <:+: b.field.data)
    (hven : ∀ s ∈ b.key_venues, ¬ t <:+: s.data) :
    ¬ t <:+: (mk_rough_draft g v r b).data := by
  have hjoinCase : ¬ t <:+: (joinStrs " " (chunksFinal g v b)).data := by
    intro hjoin
    rcases sub_joinSpace hne hsp _ hjoin with ⟨s, hs, hsub⟩
    have hintro : ¬ t <:+: (roughIntro b).data :=
      token_avoids_roughIntro hne hsp hdot hl1 hl2 hname hfield
    have hev : ¬ t <:+: (roughEvidenceFull g b).data :=
      token_avoids_evFull hne hsp hcm hdot hdig hl3 homit1 homit2 hl6 hl7
        hl8 hfake hven
    cases hw : g.styleWeak
    · have hlist : chunksFinal g v b = [roughIntro b, roughEvidenceFull g b] := by
        rw [chunksFinal, if_neg (by simp [hmis]), chunksAfterMiss, if_pos hmiss,
          if_neg (by simp [hcoin])]
        simp [chunksAfterStyle, hw]
      rw [hlist] at hs
      simp only [List.mem_cons, List.mem_singleton] at hs
      rcases hs with rfl | rfl | hfalse
      · exact hintro hsub
      · exact hev hsub
      · simp at hfalse
    · have hlist : chunksFinal g v b =
          [fillerSentence, roughIntro b, roughEvidenceFull g b] := by
        rw [chunksFinal, if_neg (by simp [hmis]), chunksAfterMiss, if_pos hmiss,
          if_neg (by simp [hcoin])]
        simp [chunksAfterStyle, hw]
      rw [hlist] at hs
      simp only [List.mem_cons, List.mem_singleton] at hs
      rcases hs with rfl | rfl | rfl | hfalse
      · exact hfiller hsub
      · exact hintro hsub
      · exact hev hsub
      · simp at hfalse
  intro h
  have hbody : t <:+: (roughBody g v b).data := sub_of_sub_fill hnl h
  rw [roughBody] at hbody
  by_cases hp : g.passive = true
  · rw [if_pos hp] at hbody
    simp only [String.data_append] at hbody
    rw [show passiveFiller.data = ' ' ::
        "Their contributions have been considered impactful by many, in ways that are thought to be significant.".data
      from rfl] at hbody
    rcases sub_sep hsp hbody with hb | hb
    · exact hjoinCase hb
    · exact hpassLit hb
  · rw [if_neg hp] at hbody
    exact hjoinCase hbody

/-! ### C3: drop-closing scenario and visa tokens -/

def gC3 : RoughGates := { gOff with sectionMiss := true, misname := true }

/-- C3 counterexample: the visa-misnaming gate (probability 0.08) is one of
the "remaining random gates"; it fires after the closing was dropped and
overwrites the last remaining chunk with a wrong-visa sentence, so the rough
draft does contain a visa-category token. -/
theorem C3_counterexample :
    gC3.sectionMiss = true ∧ gC3.dropFirstCoin = false ∧ gC3.misname = true ∧
    "O-1A" ∈ VISA_TYPES ∧
    "O-1A".data <:+: (mk_rough_draft gC3 "EB-1A" pEx bEx).data :=
  ⟨rfl, rfl, rfl, by decide, by decide⟩

/-- C3 amended: with the section-omission gate fired, its coin on the
drop-closing branch, and additionally the visa-misnaming gate not firing,
the rough draft built from any facts produced by the Fact Synthesizer
contains no visa-category token at all, whatever the remaining random gates
do.  (If the misnaming gate fires it overwrites the last remaining chunk
with a wrong-visa sentence, and a visa token can also be planted through
adversarial fact strings, so both restrictions are necessary.) -/
theorem C3_amended (g : RoughGates) (v : String) (r : Person)
    (rnd : BeneficiaryRand) (i : Nat) (hmiss : g.sectionMiss = true)
    (hcoin : g.dropFirstCoin = false) (hmis : g.misname = false) :
    ∀ tok ∈ VISA_TYPES,
      ¬ (tok.data <:+: (mk_rough_draft g v r (mk_beneficiary rnd i)).data) := by
  intro tok htok
  have hvensub : (mk_beneficiary rnd i).key_venues ⊆ VENUE_POOL := by
    simp only [mk_beneficiary]
    exact choice_no_replacement_subset _ _ _
  have hfieldmem : (mk_beneficiary rnd i).field ∈ FIELDS := by
    simp only [mk_beneficiary]
    exact rchoice_mem _ _ (by decide)
  rcases (by simpa [VISA_TYPES] using htok :
      tok = "EB-1A" ∨ tok = "O-1A" ∨ tok = "NIW") with rfl | rfl | rfl <;>
  · exact token_avoids_dropclosing_draft g v r _ hmiss hcoin hmis
      (by decide) (by decide) (by decide) (by decide) (by decide) (by decide)
      (by decide) (by decide) (by decide) (by decide) (by decide) (by decide)
      (by decide) (by decide) (by decide) (by decide) (by decide)
      (token_avoids_gen_name i (by decide) (by decide) (by decide) (by decide)
        (by decide) (by decide))
      ((by decide : ∀ s ∈ FIELDS, ¬ _ <:+: s.data) _ hfieldmem)
      (fun s hs => (by decide : ∀ s ∈ VENUE_POOL, ¬ _ <:+: s.data) s (hvensub hs))

theorem C3_amended_witness :
    ¬ (("EB-1A" : String).data <:+:
        (mk_rough_draft { gOff with sectionMiss := true } "EB-1A" pEx
          (mk_beneficiary rbEx 1)).data) :=
  C3_amended { gOff with sectionMiss := true } "EB-1A" pEx rbEx 1 rfl rfl rfl
    "EB-1A" (by decide)
